import Mathlib

/-!
# font-finder: verification of the indexing / caching / preview pipeline

Shallow embedding of the core of the `font-finder` repository
(`src/lib/font-index.ts` a.k.a. the index store, `src/lib/font-preview.ts`,
and the preview request queue of `src/search-fonts.tsx`), together with
theorems settling the frozen claims C1–C10.

Modelling conventions:
* JavaScript numbers that hold font metrics are modelled as `ℚ`; the
  finite/non-finite distinction produced by `Number.isFinite` checks is
  modelled with `Option ℚ` (`none` = the face reported a non-finite value).
* Timestamps (milliseconds) are modelled as `ℤ`; file modification
  times, which are JS numbers, as `ℚ`.
* Text that flows through glyph lookups is modelled as a list of Unicode
  code points (`List Nat`), matching the `for (const char of text)`
  iteration of the source; family names and cache keys stay `String`.
* External facilities (the `fontkit` parser, `Date.parse`, the Unicode
  regex classes `\s` and `[\p{L}\p{N}]`, and the `localeCompare`
  collator) are parameters of the embedded functions.
-/

/-- Source classification of a font file (`FontSource` in the source);
modelled as its string value, since the loader only validates
`typeof f.source === "string"`. -/
abbrev FontSource := String

/-- `FontFace` record from `src/lib/font-index.ts`. -/
structure FontFace where
  id : String
  familyName : String
  styleName : String
  displayName : String
  postscriptName : Option String
  fullName : Option String
  filePath : String
  fileExt : String
  source : FontSource
  fileMtimeMs : ℚ
  deriving Repr, DecidableEq

/-- `FONT_INDEX_VERSION` constant. -/
def FONT_INDEX_VERSION : Nat := 2

/-- `FONT_INDEX_TTL_MS` constant (7 days in milliseconds). -/
def FONT_INDEX_TTL_MS : Int := 1000 * 60 * 60 * 24 * 7

/-- `FontIndex` record (the persisted snapshot). -/
structure FontIndex where
  version : Nat
  builtAt : String
  faces : List FontFace
  deriving Repr, DecidableEq

/-- `FontFamily` record. -/
structure FontFamily where
  id : String
  familyName : String
  faces : List FontFace
  representativeFaceId : String
  deriving Repr, DecidableEq

/-! ## SHA-1 (`src/lib/hash.ts`)

Modelled from the spec: the repository's hash helper `src/lib/hash.ts`
is not present under `src/` (only its import sites are).  The spec names
the function `sha1` and §6 fixes the cache keys as SHA-1 hex digests, so
the standard SHA-1 algorithm over the UTF-8 bytes of the input string is
implemented here, on `Nat` with explicit reduction modulo `2 ^ 32`. -/

/-- Rotate a 32-bit word (given as a `Nat` below `2 ^ 32`) left by `n`. -/
def rotl32 (n x : Nat) : Nat :=
  ((x <<< n) % 4294967296) ||| (x >>> (32 - n))

/-- SHA-1 padding: append `0x80`, zero bytes to 56 mod 64, and the
64-bit big-endian bit length. -/
def sha1pad (msg : List Nat) : List Nat :=
  let len := msg.length
  let zeros := (119 - len % 64) % 64
  msg ++ [0x80] ++ List.replicate zeros 0 ++
    (List.range 8).map (fun i => (len * 8) >>> ((7 - i) * 8) % 256)

/-- Big-endian 4-byte groups to 32-bit words. -/
def bytesToWords : List Nat → List Nat
  | b0 :: b1 :: b2 :: b3 :: rest =>
      (b0 * 16777216 + b1 * 65536 + b2 * 256 + b3) :: bytesToWords rest
  | _ => []

/-- Extend 16 message words to the 80 SHA-1 schedule words. -/
def sha1extend (w : List Nat) : List Nat :=
  (List.range 64).foldl
    (fun ws _ =>
      let n := ws.length
      ws ++ [rotl32 1 (((ws.getD (n - 3) 0) ^^^ (ws.getD (n - 8) 0)) ^^^
        ((ws.getD (n - 14) 0) ^^^ (ws.getD (n - 16) 0)))])
    w

/-- SHA-1 round function. -/
def sha1f (t b c d : Nat) : Nat :=
  if t < 20 then (b &&& c) ||| ((b ^^^ 0xffffffff) &&& d)
  else if t < 40 then (b ^^^ c) ^^^ d
  else if t < 60 then ((b &&& c) ||| (b &&& d)) ||| (c &&& d)
  else (b ^^^ c) ^^^ d

/-- SHA-1 round constants. -/
def sha1k (t : Nat) : Nat :=
  if t < 20 then 0x5A827999
  else if t < 40 then 0x6ED9EBA1
  else if t < 60 then 0x8F1BBCDC
  else 0xCA62C1D6

/-- Process one 64-byte chunk. -/
def sha1chunk (h : Nat × Nat × Nat × Nat × Nat) (chunk : List Nat) :
    Nat × Nat × Nat × Nat × Nat :=
  let w := sha1extend (bytesToWords chunk)
  let (h0, h1, h2, h3, h4) := h
  let final := (List.range 80).foldl
    (fun st t =>
      let (a, b, c, d, e) := st
      let temp :=
        (rotl32 5 a + sha1f t b c d + e + sha1k t + w.getD t 0) % 4294967296
      (temp, a, rotl32 30 b, c, d))
    (h0, h1, h2, h3, h4)
  let (a, b, c, d, e) := final
  ((h0 + a) % 4294967296, (h1 + b) % 4294967296, (h2 + c) % 4294967296,
    (h3 + d) % 4294967296, (h4 + e) % 4294967296)

/-- Split a byte list into 64-byte chunks (structural recursion on a
fuel bound so the kernel can evaluate it; `fuel = l.length` always
suffices since each step drops 64 > 0 bytes). -/
def toChunks64Go : Nat → List Nat → List (List Nat)
  | _, [] => []
  | 0, _ :: _ => []
  | fuel + 1, b :: rest =>
      (b :: rest).take 64 :: toChunks64Go fuel ((b :: rest).drop 64)

/-- Split a byte list into 64-byte chunks. -/
def toChunks64 (l : List Nat) : List (List Nat) :=
  toChunks64Go l.length l

/-- UTF-8 encoding of one Unicode scalar value. -/
def utf8EncodeCp (n : Nat) : List Nat :=
  if n < 0x80 then [n]
  else if n < 0x800 then [0xC0 + n / 64, 0x80 + n % 64]
  else if n < 0x10000 then
    [0xE0 + n / 4096, 0x80 + (n / 64) % 64, 0x80 + n % 64]
  else
    [0xF0 + n / 262144, 0x80 + (n / 4096) % 64, 0x80 + (n / 64) % 64,
      0x80 + n % 64]

/-- UTF-8 bytes of a string. -/
def utf8Bytes (s : String) : List Nat :=
  s.data.flatMap (fun c => utf8EncodeCp c.toNat)

/-- Lower-case hexadecimal digit. -/
def hexDigit (n : Nat) : Char :=
  if n < 10 then Char.ofNat (48 + n) else Char.ofNat (87 + n)

/-- 8-hex-digit rendering of a 32-bit word. -/
def toHex8 (x : Nat) : String :=
  String.mk ((List.range 8).map (fun i => hexDigit ((x >>> ((7 - i) * 4)) % 16)))

/-- SHA-1 hex digest of the UTF-8 bytes of a string
(modelled from the spec, see the section header). -/
def sha1 (s : String) : String :=
  let hs := (toChunks64 (sha1pad (utf8Bytes s))).foldl sha1chunk
    (0x67452301, 0xEFCDAB89, 0x98BADCFE, 0x10325476, 0xC3D2E1F0)
  let (h0, h1, h2, h3, h4) := hs
  toHex8 h0 ++ toHex8 h1 ++ toHex8 h2 ++ toHex8 h3 ++ toHex8 h4

/-! ## Face fingerprint (`buildFontIndex`, `src/lib/font-index.ts` lines 227–233) -/

/-- The string serialised into the face fingerprint:
`` `${filePath}|${postscriptName ?? ""}|${styleName}` ``. -/
def faceKey (filePath : String) (postscriptName : Option String)
    (styleName : String) : String :=
  filePath ++ "|" ++ postscriptName.getD "" ++ "|" ++ styleName

/-- The face `id` computed during index building:
`sha1` of the serialised (filePath, postscriptName, styleName) triple. -/
def faceId (filePath : String) (postscriptName : Option String)
    (styleName : String) : String :=
  sha1 (faceKey filePath postscriptName styleName)

/-! ## Staleness (`isIndexStale`, `src/lib/font-index.ts` lines 84–88)

`Date.parse` and `Date.now` are external; they enter as parameters.
`parseDate s = none` models `Date.parse` returning `NaN`
(`Number.isFinite` false). -/

/-- `isIndexStale`: true when `builtAt` cannot be parsed, otherwise
when `now - builtAtMs > FONT_INDEX_TTL_MS`. -/
def isIndexStale (parseDate : String → Option Int) (now : Int)
    (index : FontIndex) : Bool :=
  match parseDate index.builtAt with
  | none => true
  | some builtAtMs => decide (now - builtAtMs > FONT_INDEX_TTL_MS)

/-! ## Persisted index loading (`loadFontIndex`, `src/lib/font-index.ts` lines 90–123)

The on-disk file and `JSON.parse` are external.  The loader's input is
modelled as `Option Json`: `none` covers both a failed `fs.readFile` and
a `JSON.parse` exception (the `catch` branch), `some v` the successfully
parsed document. -/

/-- A parsed JSON value. -/
inductive Json where
  | null
  | bool (b : Bool)
  | num (q : ℚ)
  | str (s : String)
  | arr (items : List Json)
  | obj (fields : List (String × Json))

/-- JavaScript falsiness of a parsed JSON value
(`null`, `false`, `0` and `""` are falsy). -/
def jsFalsy : Json → Bool
  | .null => true
  | .bool b => !b
  | .num q => q == 0
  | .str s => s == ""
  | _ => false

/-- Property access `v[key]`: only objects yield fields (access on a
primitive or an array coming out of `JSON.parse` yields `undefined`). -/
def Json.getField : Json → String → Option Json
  | .obj fields, key => (fields.find? (fun kv => kv.1 == key)).map (fun kv => kv.2)
  | _, _ => none

/-- `typeof f.k === "string"` on a record field. -/
def Json.strFieldOk (f : Json) (key : String) : Bool :=
  match f.getField key with
  | some (.str _) => true
  | _ => false

/-- The conjunction of the structural-validation filters applied to one
stored face record (lines 100–110): truthy object, string `id`,
`familyName`, `styleName`, `displayName`, `filePath`, `fileExt`,
`source`, and numeric `fileMtimeMs`. -/
def isValidFaceJson (f : Json) : Bool :=
  (match f with
   | .obj _ => true
   | .arr _ => true
   | _ => false) &&
  f.strFieldOk "id" &&
  (f.strFieldOk "familyName" && f.strFieldOk "styleName") &&
  f.strFieldOk "displayName" &&
  f.strFieldOk "filePath" &&
  f.strFieldOk "fileExt" &&
  f.strFieldOk "source" &&
  (match f.getField "fileMtimeMs" with
   | some (.num _) => true
   | _ => false)

/-- String field extraction (the default is never used on a record that
passed validation). -/
def Json.strField (f : Json) (key : String) : String :=
  match f.getField key with
  | some (.str s) => s
  | _ => ""

/-- A validated record, read back as a `FontFace` (the source keeps the
raw object under a type cast; optional fields holding non-string junk
are modelled as absent). -/
def faceOfJson (f : Json) : Option FontFace :=
  if isValidFaceJson f then
    some
      { id := f.strField "id"
        familyName := f.strField "familyName"
        styleName := f.strField "styleName"
        displayName := f.strField "displayName"
        postscriptName :=
          match f.getField "postscriptName" with
          | some (.str s) => some s
          | _ => none
        fullName :=
          match f.getField "fullName" with
          | some (.str s) => some s
          | _ => none
        filePath := f.strField "filePath"
        fileExt := f.strField "fileExt"
        source := f.strField "source"
        fileMtimeMs :=
          match f.getField "fileMtimeMs" with
          | some (.num q) => q
          | _ => 0 }
  else none

/-- `new Date(0).toISOString()`. -/
def epochIso : String := "1970-01-01T00:00:00.000Z"

/-- `loadFontIndex`: reject a falsy document, a `version` other than
`FONT_INDEX_VERSION`, and a non-array `faces`; keep the face records
that pass structural validation; substitute the epoch timestamp for a
non-string `builtAt`. -/
def loadFontIndex (input : Option Json) : Option FontIndex :=
  match input with
  | none => none
  | some parsed =>
    if jsFalsy parsed then none
    else
      match parsed.getField "version" with
      | some (.num v) =>
        if v = (FONT_INDEX_VERSION : ℚ) then
          match parsed.getField "faces" with
          | some (.arr rawFaces) =>
            some
              { version := FONT_INDEX_VERSION
                builtAt :=
                  match parsed.getField "builtAt" with
                  | some (.str s) => s
                  | _ => epochIso
                faces := rawFaces.filterMap faceOfJson }
          | _ => none
        else none
      | _ => none

/-! ## Family grouping (`src/lib/font-index.ts` lines 259–291)

`localeCompare` is an external collator; it enters as a parameter
`cmp : String → String → Int` (negative / zero / positive, as in JS).
`Array.prototype.sort` with a consistent comparator is (per ES2019) the
unique stable sort for that comparator; it is modelled by
`List.insertionSort` with the relation `cmp a b ≤ 0`, which inserts each
element coming from the left before the first already-placed element it
compares `≤ 0` against — the stable insertion sort. -/

/-- ASCII lower-casing of one character (`String.prototype.toLowerCase`
restricted to ASCII, which covers every string the source compares). -/
def charToLower (c : Char) : Char :=
  if 'A' ≤ c && c ≤ 'Z' then Char.ofNat (c.toNat + 32) else c

/-- `String.prototype.toLowerCase` (ASCII model). -/
def strToLower (s : String) : String :=
  String.mk (s.data.map charToLower)

/-- A character `String.prototype.trim` strips (ASCII model of the
WhiteSpace/LineTerminator classes). -/
def isTrimSpace (c : Char) : Bool :=
  c == ' ' || c == '\t' || c == '\n' || c == '\r' ||
    c == Char.ofNat 11 || c == Char.ofNat 12

/-- `String.prototype.trim` (ASCII model). -/
def strTrim (s : String) : String :=
  String.mk (((s.data.dropWhile isTrimSpace).reverse.dropWhile
    isTrimSpace).reverse)

/-- `f.styleName.trim().toLowerCase() === "regular"`. -/
def isRegularStyle (f : FontFace) : Bool :=
  strToLower (strTrim f.styleName) == "regular"

/-- `pickRepresentativeFace`: the first face whose trimmed, lower-cased
style name is `"regular"`, else `faces[0]`.  The source would return
`undefined` on an empty list; that is modelled as `none`. -/
def pickRepresentativeFace (faces : List FontFace) : Option FontFace :=
  match faces.find? isRegularStyle with
  | some f => some f
  | none => faces.head?

/-- One step of filling the `byFamily` map: append the face to its
family's list when the key is already present (JS `Map` keeps insertion
order), else add a new (key, singleton) entry at the end. -/
def addFace (acc : List (String × List FontFace)) (f : FontFace) :
    List (String × List FontFace) :=
  if acc.any (fun kv => kv.1 == f.familyName) then
    acc.map (fun kv =>
      if kv.1 == f.familyName then (kv.1, kv.2 ++ [f]) else kv)
  else acc ++ [(f.familyName, [f])]

/-- The `byFamily` map of `groupIntoFamilies`, as an insertion-ordered
association list. -/
def groupByFamily (faces : List FontFace) : List (String × List FontFace) :=
  faces.foldl addFace []

/-- First-occurrence deduplication (`Set`/`Map` key order in JS). -/
def insertNew {α : Type} [DecidableEq α] (acc : List α) (a : α) : List α :=
  if a ∈ acc then acc else acc ++ [a]

/-- First-occurrence deduplication of a list. -/
def firstOccur {α : Type} [DecidableEq α] (l : List α) : List α :=
  l.foldl insertNew []

/-- `groupIntoFamilies`: partition by exact `familyName`, sort each
family's faces by `styleName` under the collator, pick the
representative, and sort the families by `familyName`.  (`.getD ""` is
never taken: every group built by `groupByFamily` is non-empty, so
`pickRepresentativeFace` returns `some`; the source would throw on an
empty group.) -/
def groupIntoFamilies (cmp : String → String → Int) (faces : List FontFace) :
    List FontFamily :=
  let groups := groupByFamily faces
  let families := groups.map (fun kv =>
    let facesSorted :=
      List.insertionSort (fun a b => cmp a.styleName b.styleName ≤ 0) kv.2
    { id := sha1 kv.1
      familyName := kv.1
      faces := facesSorted
      representativeFaceId :=
        ((pickRepresentativeFace facesSorted).map FontFace.id).getD "" })
  List.insertionSort (fun a b => cmp a.familyName b.familyName ≤ 0) families

/-! ## Preview generation (`src/lib/font-preview.ts`)

The `fontkit` parser is external; an opened face enters as a `Font`
value whose fields model the narrow capability interface the source
reads.  Text is a list of Unicode code points (`toCodePoints` of the
source is the identity under this representation).  The Unicode regex
classes `/^\s$/u` and `/[\p{L}\p{N}]/u` enter as parameters
`ws, alnum : Nat → Bool`. -/

/-- Code points of a string literal. -/
def textCodePoints (s : String) : List Nat :=
  s.data.map Char.toNat

/-- `SAMPLE_TEXT_CANDIDATES` (lines 26–39). -/
def SAMPLE_TEXT_CANDIDATES : List (List Nat) :=
  ["Aa", "Яя", "Αα", "אב", "هو", "अआ", "กข", "あア", "アイ", "한글", "汉字",
    "漢字"].map textCodePoints

/-- A shaped glyph as read by the source. `id = none` models a glyph
whose `id` coerces to `NaN` (absent); `scaledPathSvg` folds
`getScaledPath?(size)?.toSVG?.()` and its try/catch into one
`Option`-valued function. -/
structure Glyph where
  id : Option ℚ
  advanceWidth : Option ℚ
  scaledPathSvg : ℚ → Option String

/-- A glyph position of a layout run (absent fields read as 0 through
`Number(...) || 0`). -/
structure GlyphPos where
  xAdvance : Option ℚ
  xOffset : Option ℚ
  yOffset : Option ℚ

/-- A layout run; `none` fields model `run.glyphs` / `run.positions`
failing the `Array.isArray` check. -/
structure LayoutRun where
  glyphs : Option (List Glyph)
  positions : Option (List GlyphPos)

/-- An opened face: the capability interface of the parser.
`layout` returning `none` models `font.layout` throwing. -/
structure Font where
  characterSet : Option (List Int)
  glyphForCodePoint : Nat → Option Glyph
  layout : List Nat → Option LayoutRun
  unitsPerEm : Option ℚ
  ascent : Option ℚ
  descent : Option ℚ

/-- `path.extname`: the suffix of the base name from its last `.`;
empty when there is no dot or the dot is the leading character. -/
def pathExtname (p : String) : String :=
  let base := (p.data.reverse.takeWhile (fun c => !(c == '/'))).reverse
  let suffix := base.reverse.takeWhile (fun c => !(c == '.'))
  if suffix.length = base.length then ""
  else if base.length - suffix.length - 1 = 0 then ""
  else String.mk ('.' :: suffix.reverse)

/-- `shouldSelectByPostscript` (lines 73–76): lower-cased extension is
`.ttc` or `.dfont`. -/
def shouldSelectByPostscript (filePath : String) : Bool :=
  let ext := strToLower (pathExtname filePath)
  ext == ".ttc" || ext == ".dfont"

/-- The PostScript-name selector `buildVectorPreviewSvg` passes to
`openSync` (lines 220–225): the face's PostScript name for collection
containers, `null` otherwise. -/
def vectorOpenSelector (filePath : String) (postscriptName : Option String) :
    Option String :=
  if shouldSelectByPostscript filePath then postscriptName else none

/-- `getCharacterSet` (lines 87–99): `null` unless the face exposes a
non-empty array; keep the integers `≥ 0` as a set (first-occurrence
order; the `typeof`/`isInteger` guards are type-level here). -/
def getCharacterSet (font : Font) : Option (List Nat) :=
  match font.characterSet with
  | none => none
  | some source =>
    if source.length = 0 then none
    else
      let out := firstOccur ((source.filter (fun v => 0 ≤ v)).map Int.toNat)
      if 0 < out.length then some out else none

/-- `hasGlyphForCodePoint` (lines 101–116). -/
def hasGlyphForCodePoint (font : Font) (codePoint : Nat)
    (characterSet : Option (List Nat)) : Bool :=
  if (match characterSet with
      | some set => !(set.contains codePoint)
      | none => false) then false
  else
    match font.glyphForCodePoint codePoint with
    | none => false
    | some glyph =>
      match glyph.id with
      | some idv => decide (0 < idv)
      | none => true

/-- `canRenderText` (lines 118–128): non-empty and every code point has
a usable glyph. -/
def canRenderText (font : Font) (text : List Nat)
    (characterSet : Option (List Nat)) : Bool :=
  if text.length = 0 then false
  else text.all (fun codePoint => hasGlyphForCodePoint font codePoint characterSet)

/-- The skip conditions of the fallback scan (lines 137–143), as one
predicate: keep a code point iff it is not a C0 control, not beyond
U+10FFFF, not in the BMP private-use area, not whitespace, and is a
letter or number. -/
def fallbackCpUsable (ws alnum : Nat → Bool) (codePoint : Nat) : Bool :=
  !(codePoint < 0x20) && !(codePoint > 0x10ffff) &&
  !(0xe000 ≤ codePoint && codePoint ≤ 0xf8ff) &&
  !(ws codePoint) && alnum codePoint

/-- The collecting loop of `pickFallbackSample` (lines 136–147):
append each usable code point, stopping at two. -/
def pickFallbackLoop (usable : Nat → Bool) (picked : List Nat) :
    List Nat → List Nat
  | [] => picked
  | codePoint :: rest =>
    if usable codePoint then
      let picked' := picked ++ [codePoint]
      if 2 ≤ picked'.length then picked'
      else pickFallbackLoop usable picked' rest
    else pickFallbackLoop usable picked rest

/-- `pickFallbackSample` (lines 130–151): scan the coverage set in
ascending code-point order; `none` when nothing usable is found. -/
def pickFallbackSample (ws alnum : Nat → Bool)
    (characterSet : Option (List Nat)) : Option (List Nat) :=
  match characterSet with
  | none => none
  | some cs =>
    if cs.length = 0 then none
    else
      let codePoints := List.insertionSort (fun a b => a ≤ b) cs
      let picked := pickFallbackLoop (fallbackCpUsable ws alnum) [] codePoints
      if picked.length = 0 then none else some picked

/-- A JS word character (`\w` of a non-Unicode regex). -/
def isWordChar (c : Char) : Bool :=
  ('a' ≤ c && c ≤ 'z') || ('A' ≤ c && c ≤ 'Z') || ('0' ≤ c && c ≤ '9') ||
    c == '_'

/-- `/^PingFang\b/.test(name)`. -/
def pingFangTest (name : String) : Bool :=
  (name.data.take 8 == "PingFang".data) &&
    (match name.data.drop 8 with
     | [] => true
     | c :: _ => !isWordChar c)

/-- Scanner for `/\b(HK|MO|TC)\b/.test(name)`: an occurrence of one of
the two-letter region codes with word boundaries on both sides. -/
def hkMoTcAt : List Char → Option Char → Bool
  | a :: b :: rest, prev =>
    (((a == 'H' && b == 'K') || (a == 'M' && b == 'O') ||
        (a == 'T' && b == 'C')) &&
      (match prev with
       | none => true
       | some p => !isWordChar p) &&
      (match rest with
       | [] => true
       | c :: _ => !isWordChar c)) ||
    hkMoTcAt (b :: rest) (some a)
  | _, _ => false

/-- `/\b(HK|MO|TC)\b/.test(name)`. -/
def hkMoTcTest (name : String) : Bool :=
  hkMoTcAt name.data none

/-- Simplified Han sample `"汉字"`. -/
def hanSimp : List Nat := textCodePoints "汉字"

/-- Traditional Han sample `"漢字"`. -/
def hanTrad : List Nat := textCodePoints "漢字"

/-- `pickSampleText` (lines 153–177): the PingFang special case, then
the ordered candidate list, then the fallback scan, then `"Aa"`. -/
def pickSampleText (ws alnum : Nat → Bool) (font : Font)
    (familyName : Option String) : List Nat :=
  let name := strTrim (familyName.getD "")
  let characterSet := getCharacterSet font
  let afterCandidates :=
    match SAMPLE_TEXT_CANDIDATES.find?
        (fun sample => canRenderText font sample characterSet) with
    | some sample => sample
    | none =>
      match pickFallbackSample ws alnum characterSet with
      | some fallback => fallback
      | none => textCodePoints "Aa"
  if pingFangTest name then
    let preferred := if hkMoTcTest name then hanTrad else hanSimp
    let secondary := if preferred == hanTrad then hanSimp else hanTrad
    if canRenderText font preferred characterSet then preferred
    else if canRenderText font secondary characterSet then secondary
    else afterCandidates
  else afterCandidates

/-- `VECTOR_PREVIEW_WIDTH`. -/
def VECTOR_PREVIEW_WIDTH : ℚ := 720

/-- `VECTOR_PREVIEW_HEIGHT`. -/
def VECTOR_PREVIEW_HEIGHT : ℚ := 240

/-- `VECTOR_PREVIEW_PADDING`. -/
def VECTOR_PREVIEW_PADDING : ℚ := 28

/-- `VECTOR_PREVIEW_SCALE_RATIO` (0.78). -/
def VECTOR_PREVIEW_SCALE_RATIO : ℚ := 78 / 100

/-- `Number(font?.unitsPerEm) > 0 ? ... : 1000` (line 245–246). -/
def computeUnitsPerEm (unitsPerEm : Option ℚ) : ℚ :=
  match unitsPerEm with
  | some v => if 0 < v then v else 1000
  | none => 1000

/-- `ascentUnits` (line 249): the face's ascent when finite, else 80%
of units-per-em. -/
def computeAscentUnits (ascent : Option ℚ) (unitsPerEm : ℚ) : ℚ :=
  match ascent with
  | some a => a
  | none => unitsPerEm * (4 / 5)

/-- `descentUnits` (line 250): the face's descent when finite, else
−20% of units-per-em. -/
def computeDescentUnits (descent : Option ℚ) (unitsPerEm : ℚ) : ℚ :=
  match descent with
  | some d => d
  | none => -(unitsPerEm * (1 / 5))

/-- Sum of the shaped per-glyph advances (lines 252–256). -/
def positionRunWidthUnits (positions : List GlyphPos) : ℚ :=
  (positions.map (fun p => p.xAdvance.getD 0)).foldl (· + ·) 0

/-- Sum of the glyphs' own advance widths (lines 258–260). -/
def glyphRunWidthUnits (glyphs : List Glyph) : ℚ :=
  (glyphs.map (fun g => g.advanceWidth.getD 0)).foldl (· + ·) 0

/-- `runWidthUnits` (lines 257–263): the shaped-advance sum, replaced
by the glyph-advance sum when the former is not positive. -/
def computeRunWidthUnits (glyphs : List Glyph) (positions : List GlyphPos) : ℚ :=
  if positionRunWidthUnits positions ≤ 0 then glyphRunWidthUnits glyphs
  else positionRunWidthUnits positions

/-- `Number.prototype.toFixed(2)`, on exact rationals (round half away
from the floor; the source applies it to doubles — only the printed
path coordinates depend on it, no claim does). -/
def toFixed2 (q : ℚ) : String :=
  let scaled : Int := Int.floor (q * 100 + 1 / 2)
  let sign := if scaled < 0 then "-" else ""
  let n := scaled.natAbs
  sign ++ toString (n / 100) ++ "." ++
    (if n % 100 < 10 then "0" else "") ++ toString (n % 100)

/-- One `<path .../>` element (line 312–314). -/
def glyphPathElement (d : String) (x y : ℚ) : String :=
  "<path d=\"" ++ d ++ "\" transform=\"translate(" ++ toFixed2 x ++ "," ++
    toFixed2 y ++ ") scale(1,-1)\" fill=\"#111\" />"

/-- The glyph loop of `buildVectorPreviewSvg` (lines 282–315) over the
paired glyph/position sequence (the caller has checked the two arrays
have equal length), accumulating the pen position; a glyph is skipped
when its id is finite and `≤ 0`, or when no outline string is produced
(`!d` is also true of the empty string). -/
def buildGlyphPaths (useGlyphAdvanceFallback : Bool)
    (scale fontSizePx startX baselineY : ℚ) (penXUnits : ℚ) :
    List (Glyph × GlyphPos) → List String
  | [] => []
  | (glyph, pos) :: rest =>
    let xOffsetUnits := pos.xOffset.getD 0
    let yOffsetUnits := pos.yOffset.getD 0
    let xAdvanceUnits :=
      if useGlyphAdvanceFallback then glyph.advanceWidth.getD 0
      else pos.xAdvance.getD 0
    let x := startX + (penXUnits + xOffsetUnits) * scale
    let y := baselineY - yOffsetUnits * scale
    let penX' := penXUnits + xAdvanceUnits
    let keep :=
      buildGlyphPaths useGlyphAdvanceFallback scale fontSizePx startX
        baselineY penX' rest
    if (match glyph.id with
        | some idv => decide (idv ≤ 0)
        | none => false) then keep
    else
      match glyph.scaledPathSvg fontSizePx with
      | none => keep
      | some d => if d == "" then keep else glyphPathElement d x y :: keep

/-- `escapeXml` (lines 179–184). -/
def escapeXml (text : String) : String :=
  String.mk (text.data.flatMap (fun c =>
    if c == '&' then "&amp;".data
    else if c == '<' then "&lt;".data
    else if c == '>' then "&gt;".data
    else [c]))

/-- The emitted SVG document (lines 319–329). -/
def svgDocument (familyName : Option String) (paths : List String) : String :=
  let title := escapeXml (familyName.getD "Font Preview")
  String.intercalate "\n"
    (["<?xml version=\"1.0\" encoding=\"UTF-8\"?>",
      "<svg xmlns=\"http://www.w3.org/2000/svg\" width=\"720\" height=\"240\" viewBox=\"0 0 720 240\">",
      "<title>" ++ title ++ "</title>",
      "<rect x=\"0\" y=\"0\" width=\"720\" height=\"240\" fill=\"#ffffff\" />"] ++
      paths ++ ["</svg>", ""])

/-- The geometry-and-render tail of `buildVectorPreviewSvg`
(lines 245–329), after the run's arrays have been extracted and their
lengths checked. -/
def renderGlyphRun (glyphs : List Glyph) (positions : List GlyphPos)
    (unitsPerEmRaw ascentRaw descentRaw : Option ℚ)
    (familyName : Option String) : Option String :=
  let unitsPerEm := computeUnitsPerEm unitsPerEmRaw
  let ascentUnits := computeAscentUnits ascentRaw unitsPerEm
  let descentUnits := computeDescentUnits descentRaw unitsPerEm
  let runWidthUnits := computeRunWidthUnits glyphs positions
  let runHeightUnits := ascentUnits - descentUnits
  if runWidthUnits ≤ 0 ∨ runHeightUnits ≤ 0 then none
  else
    let availableWidth := VECTOR_PREVIEW_WIDTH - VECTOR_PREVIEW_PADDING * 2
    let availableHeight := VECTOR_PREVIEW_HEIGHT - VECTOR_PREVIEW_PADDING * 2
    let scale :=
      min (availableWidth / runWidthUnits) (availableHeight / runHeightUnits) *
        VECTOR_PREVIEW_SCALE_RATIO
    let fontSizePx := scale * unitsPerEm
    if fontSizePx ≤ 0 then none
    else
      let baselineY := VECTOR_PREVIEW_PADDING + ascentUnits * scale
      let runWidthPx := runWidthUnits * scale
      let startX :=
        max VECTOR_PREVIEW_PADDING ((VECTOR_PREVIEW_WIDTH - runWidthPx) / 2)
      let useGlyphAdvanceFallback := positionRunWidthUnits positions ≤ 0
      let paths := buildGlyphPaths useGlyphAdvanceFallback scale fontSizePx
        startX baselineY 0 (glyphs.zip positions)
      if paths.length = 0 then none else some (svgDocument familyName paths)

/-- `buildVectorPreviewSvg` (lines 213–330).  `openFont` models
`fontkit.openSync` (`none` = it threw); it receives the selector the
source computes from the file extension. -/
def buildVectorPreviewSvg (ws alnum : Nat → Bool)
    (openFont : String → Option String → Option Font) (filePath : String)
    (postscriptName familyName : Option String) : Option String :=
  match openFont filePath (vectorOpenSelector filePath postscriptName) with
  | none => none
  | some font =>
    let sampleText := pickSampleText ws alnum font familyName
    match font.layout sampleText with
    | none => none
    | some run =>
      let glyphs := run.glyphs.getD []
      let positions := run.positions.getD []
      if glyphs.length = 0 || !(glyphs.length == positions.length) then none
      else
        renderGlyphRun glyphs positions font.unitsPerEm font.ascent
          font.descent familyName

/-! ## Preview resolution (`getFontPreview`, `src/lib/font-preview.ts` lines 361–402)

The two generators perform file-system work; their outcomes enter as
parameters (`none` = "unavailable").  The generator order of the
promise body (lines 375–393) is recorded explicitly. -/

/-- Which generator ran. -/
inductive PreviewGenerator where
  | vector
  | raster
  deriving Repr, DecidableEq

/-- The promise body of `getFontPreview`: always try the Vector
Generator first; fall back to the Raster Generator exactly when it
reports unavailable.  Returns the resolved artifact together with the
generators invoked, in order. -/
def getFontPreviewCompute (vectorResult rasterResult : Option String) :
    Option String × List PreviewGenerator :=
  match vectorResult with
  | some v => (some v, [PreviewGenerator.vector])
  | none => (rasterResult, [PreviewGenerator.vector, PreviewGenerator.raster])

/-- Spec-side definition for the refinement comparison, following the
claim's words: the Vector Generator is tried first only for faces whose
file format is a collection container (`.ttc`/`.dfont`); for other
formats the Raster Generator serves the request. -/
def resolvePreviewClaimed (filePath : String)
    (vectorResult rasterResult : Option String) :
    Option String × List PreviewGenerator :=
  if shouldSelectByPostscript filePath then
    match vectorResult with
    | some v => (some v, [PreviewGenerator.vector])
    | none => (rasterResult, [PreviewGenerator.vector, PreviewGenerator.raster])
  else (rasterResult, [PreviewGenerator.raster])

/-! ## The in-memory promise cache (`previewPromiseCache`, lines 41 and 368–401)

Promises are modelled as tokens: two callers observe the same in-flight
computation iff they receive the same token, and each token allocation
is one generation.  `getFontPreviewCall` is the synchronous cache step
of `getFontPreview`; `previewPromiseSettle` is its `.finally` handler,
which runs when the computation settles. -/

/-- The process-wide `previewPromiseCache` with a fresh-token counter. -/
structure PreviewPromiseCache where
  entries : List (String × Nat)
  nextToken : Nat
  deriving Repr, DecidableEq

/-- The empty cache (module initialisation, line 41). -/
def emptyPreviewPromiseCache : PreviewPromiseCache :=
  { entries := [], nextToken := 0 }

/-- `previewPromiseCache.get(key)`. -/
def cacheLookup (c : PreviewPromiseCache) (key : String) : Option Nat :=
  (c.entries.find? (fun kv => kv.1 == key)).map (fun kv => kv.2)

/-- The cache discipline of `getFontPreview` (lines 368–401): return
the existing in-flight promise when present, else allocate a new
computation and store it under the key. -/
def getFontPreviewCall (c : PreviewPromiseCache) (key : String) :
    Nat × PreviewPromiseCache :=
  match cacheLookup c key with
  | some token => (token, c)
  | none =>
    (c.nextToken,
      { entries := c.entries ++ [(key, c.nextToken)],
        nextToken := c.nextToken + 1 })

/-- The `.finally` handler (lines 396–398): the entry is deleted from
the cache when the promise settles (fulfilled or rejected, including
the `null` "unavailable" result). -/
def previewPromiseSettle (c : PreviewPromiseCache) (key : String) :
    PreviewPromiseCache :=
  { entries := c.entries.filter (fun kv => !(kv.1 == key)),
    nextToken := c.nextToken }

/-! ## The preview request queue (`useFacePreviewQueue`, `src/search-fonts.tsx` lines 281–448)

State of the refs `queueRef` / `queuedSetRef` / `runningSetRef` /
`activeCountRef` / `previewByFaceIdRef`, plus a log `startedIds` of the
faces for which a generation task was started (one entry per
`getFontPreview` launch in `pumpQueue`).  The single event loop runs
`pumpQueue`, `enqueuePreview` and each task's completion handler
atomically, so the system is a sequence of these three transitions.
`faceById` is the key set of the `faceById` map. -/

/-- Queue state. -/
structure PreviewQueueState where
  queue : List String
  queuedSet : List String
  running : List String
  activeCount : Nat
  previews : List (String × Option String)
  startedIds : List String
  deriving Repr, DecidableEq

/-- The initial state (all refs empty). -/
def initialQueueState : PreviewQueueState :=
  { queue := [], queuedSet := [], running := [], activeCount := 0,
    previews := [], startedIds := [] }

/-- `previewByFaceIdRef.current[faceId] !== undefined`. -/
def previewResolved (s : PreviewQueueState) (faceId : String) : Bool :=
  s.previews.any (fun kv => kv.1 == faceId)

/-- The `while` loop of `pumpQueue` (lines 342–395), with fuel (the
loop pops one queue entry per iteration, so `queue.length` fuel is
enough).  Starting a task records it in `running`/`startedIds` and
bumps `activeCount`; the asynchronous completion is a separate
transition (`completePreview`). -/
def pumpGo (concurrency : Nat) (faceById : List String) :
    Nat → PreviewQueueState → PreviewQueueState
  | 0, s => s
  | fuel + 1, s =>
    if s.activeCount < concurrency then
      match s.queue with
      | [] => s
      | faceId :: restQueue =>
        let s1 := { s with queue := restQueue,
                           queuedSet := s.queuedSet.erase faceId }
        if previewResolved s1 faceId then pumpGo concurrency faceById fuel s1
        else if s1.running.contains faceId then
          pumpGo concurrency faceById fuel s1
        else if !(faceById.contains faceId) then
          pumpGo concurrency faceById fuel s1
        else
          pumpGo concurrency faceById fuel
            { s1 with running := s1.running ++ [faceId],
                      activeCount := s1.activeCount + 1,
                      startedIds := s1.startedIds ++ [faceId] }
    else s

/-- `pumpQueue`. -/
def pumpQueue (concurrency : Nat) (faceById : List String)
    (s : PreviewQueueState) : PreviewQueueState :=
  pumpGo concurrency faceById s.queue.length s

/-- `enqueuePreview` (lines 398–412): no-op for a falsy or unknown id,
a resolved result, an already-queued or an already-running face;
otherwise insert at the front (`high`) or the back (`normal`) and pump. -/
def enqueuePreview (concurrency : Nat) (faceById : List String)
    (s : PreviewQueueState) (faceId : String) (priorityHigh : Bool) :
    PreviewQueueState :=
  if faceId == "" then s
  else if !(faceById.contains faceId) then s
  else if previewResolved s faceId then s
  else if s.queuedSet.contains faceId then s
  else if s.running.contains faceId then s
  else
    pumpQueue concurrency faceById
      { s with
        queue := if priorityHigh then faceId :: s.queue else s.queue ++ [faceId],
        queuedSet := s.queuedSet ++ [faceId] }

/-- The `.then` handler of a started task (lines 370–377, with the
component alive): record the result under the face id unless a result
is already recorded. -/
def recordPreview (s : PreviewQueueState) (faceId : String)
    (result : Option String) : PreviewQueueState :=
  { s with
    previews :=
      if previewResolved s faceId then s.previews
      else s.previews ++ [(faceId, result)] }

/-- The `.finally` handler's release step (lines 378–380):
`Math.max(0, activeCount - 1)` is `Nat` subtraction. -/
def releaseRunning (s : PreviewQueueState) (faceId : String) :
    PreviewQueueState :=
  { s with running := s.running.erase faceId,
           activeCount := s.activeCount - 1 }

/-- The full completion handler: record, release, pump. -/
def completePreview (concurrency : Nat) (faceById : List String)
    (s : PreviewQueueState) (faceId : String) (result : Option String) :
    PreviewQueueState :=
  pumpQueue concurrency faceById
    (releaseRunning (recordPreview s faceId result) faceId)

/-- Well-formedness of the queue state, as established by the source's
initialisation and preserved by its transitions: the pending queue has
no duplicates and mirrors `queuedSet`; `running` has no duplicates,
is counted exactly by `activeCount`, and is disjoint from the pending
queue; at most `concurrency` tasks are running; and every face ever
started is either still running or has a recorded result — hence is
never started twice. -/
structure QueueWF (concurrency : Nat) (s : PreviewQueueState) : Prop where
  nodupQueue : s.queue.Nodup
  nodupQueuedSet : s.queuedSet.Nodup
  queuedEq : ∀ x, x ∈ s.queuedSet ↔ x ∈ s.queue
  nodupRunning : s.running.Nodup
  activeEq : s.activeCount = s.running.length
  bound : s.activeCount ≤ concurrency
  disjoint : ∀ x, x ∈ s.queue → x ∉ s.running
  startedInv : ∀ x ∈ s.startedIds,
    x ∈ s.running ∨ previewResolved s x = true
  nodupStarted : s.startedIds.Nodup

/-! ## Theorems -/

/-- A string with no `|` separator character. -/
def pipeFreeB (s : String) : Bool :=
  decide ('|' ∉ s.data)

/-- Splitting at a separator character absent from both prefixes is
unambiguous. -/
theorem pipe_split_inj (a : List Char) :
    ∀ (c r r' : List Char), '|' ∉ a → '|' ∉ c →
      a ++ '|' :: r = c ++ '|' :: r' → a = c ∧ r = r' := by
  induction a with
  | nil =>
    intro c r r' _ hc h
    cases c with
    | nil => simpa using h
    | cons y ys =>
      simp only [List.nil_append, List.cons_append, List.cons.injEq] at h
      exact absurd (h.1 ▸ List.mem_cons_self y ys) (h.1 ▸ hc)
  | cons x xs ih =>
    intro c r r' ha hc h
    cases c with
    | nil =>
      simp only [List.cons_append, List.nil_append, List.cons.injEq] at h
      rw [h.1] at ha
      exact absurd (List.mem_cons_self _ _) ha
    | cons y ys =>
      simp only [List.cons_append, List.cons.injEq] at h
      have ha' : '|' ∉ xs := fun hm => ha (List.mem_cons_of_mem x hm)
      have hc' : '|' ∉ ys := fun hm => hc (List.mem_cons_of_mem y hm)
      obtain ⟨h1, h2⟩ := ih ys r r' ha' hc' h.2
      exact ⟨by simp [h.1, h1], h2⟩

/-- The character content of the fingerprint input string. -/
theorem faceKey_data (p : String) (ps : Option String) (st : String) :
    (faceKey p ps st).data =
      p.data ++ '|' :: ((ps.getD "").data ++ '|' :: st.data) := by
  have hbar : "|".data = ['|'] := rfl
  simp [faceKey, String.data_append, hbar]

/-- C5 counterexample: the `|`-joined serialisation is ambiguous —
the distinct triples (filePath `"a|b"`, no PostScript name, style
`"c"`) and (filePath `"a"`, PostScript name `"b|"`, style `"c"`) both
serialise to `"a|b||c"`, so `buildFontIndex` would give the two faces
the same id; the claimed collision-freedom for all distinct triples
fails. -/
theorem faceId_collision :
    faceId "a|b" none "c" = faceId "a" (some "b|") "c" ∧
      ("a|b", (none : Option String), "c") ≠ ("a", some "b|", "c") := by
  refine ⟨congrArg sha1 (by decide), by decide⟩

/-- C5 (amended): the face id is deterministic — it is a function of
the (filePath, postscriptName, styleName) triple alone — and the
serialised fingerprint input is collision-free on triples whose
filePath and PostScript name contain no `|` (so distinct such triples
get distinct ids whenever SHA-1 does not collide on their
serialisations). -/
theorem faceId_deterministic_and_injective :
    (∀ (p p' : String) (ps ps' : Option String) (st st' : String),
      p = p' → ps = ps' → st = st' → faceId p ps st = faceId p' ps' st') ∧
    (∀ (p p' : String) (ps ps' : Option String) (st st' : String),
      pipeFreeB p = true → pipeFreeB p' = true →
      pipeFreeB (ps.getD "") = true → pipeFreeB (ps'.getD "") = true →
      ps ≠ some "" → ps' ≠ some "" →
      faceKey p ps st = faceKey p' ps' st' →
      p = p' ∧ ps = ps' ∧ st = st') := by
  constructor
  · intro p p' ps ps' st st' h1 h2 h3
    rw [h1, h2, h3]
  · intro p p' ps ps' st st' hp hp' hps hps' hne hne' heq
    have hd := congrArg String.data heq
    rw [faceKey_data, faceKey_data] at hd
    have hpf : '|' ∉ p.data := of_decide_eq_true hp
    have hpf' : '|' ∉ p'.data := of_decide_eq_true hp'
    have hxf : '|' ∉ (ps.getD "").data := of_decide_eq_true hps
    have hxf' : '|' ∉ (ps'.getD "").data := of_decide_eq_true hps'
    obtain ⟨h1, h2⟩ := pipe_split_inj p.data p'.data _ _ hpf hpf' hd
    obtain ⟨h3, h4⟩ :=
      pipe_split_inj (ps.getD "").data (ps'.getD "").data _ _ hxf hxf' h2
    have hpp : p = p' := String.ext h1
    have hstst : st = st' := String.ext h4
    have hx : ps.getD "" = ps'.getD "" := String.ext h3
    refine ⟨hpp, ?_, hstst⟩
    cases ps with
    | none =>
      cases ps' with
      | none => rfl
      | some s' =>
        exfalso
        apply hne'
        simp only [Option.getD_none, Option.getD_some] at hx
        rw [← hx]
    | some s =>
      cases ps' with
      | none =>
        exfalso
        apply hne
        simp only [Option.getD_none, Option.getD_some] at hx
        rw [hx]
      | some s' =>
        simp only [Option.getD_some] at hx
        rw [hx]

/-- C5 witness: the amended theorem applied at a concrete triple. -/
theorem faceId_deterministic_and_injective_witness :
    faceId "/Library/Fonts/A.ttf" (some "A-Reg") "Regular" =
        faceId "/Library/Fonts/A.ttf" (some "A-Reg") "Regular" ∧
      ("/Library/Fonts/A.ttf" = "/Library/Fonts/A.ttf" ∧
        (some "A-Reg" : Option String) = some "A-Reg" ∧
        "Regular" = "Regular") :=
  ⟨faceId_deterministic_and_injective.1 _ _ _ _ _ _ rfl rfl rfl,
    faceId_deterministic_and_injective.2 "/Library/Fonts/A.ttf"
      "/Library/Fonts/A.ttf" (some "A-Reg") (some "A-Reg") "Regular" "Regular"
      (by decide) (by decide) (by decide) (by decide) (by decide) (by decide)
      rfl⟩

/-- C9: `isIndexStale` is true exactly when `builtAt` cannot be parsed
or the age `now − builtAt` exceeds the fixed TTL, and is false whenever
the age is at or below the threshold. -/
theorem isIndexStale_correct (parseDate : String → Option Int) (now : Int)
    (index : FontIndex) :
    (isIndexStale parseDate now index = true ↔
      parseDate index.builtAt = none ∨
        ∃ builtAtMs, parseDate index.builtAt = some builtAtMs ∧
          now - builtAtMs > FONT_INDEX_TTL_MS) ∧
    (∀ builtAtMs, parseDate index.builtAt = some builtAtMs →
      now - builtAtMs ≤ FONT_INDEX_TTL_MS →
      isIndexStale parseDate now index = false) := by
  unfold isIndexStale
  cases h : parseDate index.builtAt with
  | none => simp [h]
  | some t =>
    simp only [h]
    constructor
    · simp only [decide_eq_true_eq]
      constructor
      · intro ht
        exact Or.inr ⟨t, rfl, ht⟩
      · rintro (hc | ⟨b, hb, hbt⟩)
        · exact Option.noConfusion hc
        · obtain rfl : t = b := Option.some.inj hb
          exact hbt
    · intro b hb hle
      obtain rfl : t = b := Option.some.inj hb
      simp [show ¬(now - t > FONT_INDEX_TTL_MS) from not_lt.mpr hle]

/-- A concrete persisted index for witnesses. -/
def demoIndex : FontIndex :=
  { version := FONT_INDEX_VERSION
    builtAt := "2024-01-01T00:00:00.000Z"
    faces := [] }

/-- C9 witness: at exactly the TTL the index is fresh; one
millisecond past it is stale; an unparsable `builtAt` is stale. -/
theorem isIndexStale_correct_witness :
    isIndexStale (fun _ => some 0) 604800001 demoIndex = true ∧
      isIndexStale (fun _ => some 0) 604800000 demoIndex = false ∧
      isIndexStale (fun _ => none) 0 demoIndex = true :=
  ⟨(isIndexStale_correct (fun _ => some 0) 604800001 demoIndex).1.mpr
      (Or.inr ⟨0, rfl, by norm_num [FONT_INDEX_TTL_MS]⟩),
    (isIndexStale_correct (fun _ => some 0) 604800000 demoIndex).2 0 rfl
      (by norm_num [FONT_INDEX_TTL_MS]),
    (isIndexStale_correct (fun _ => none) 0 demoIndex).1.mpr (Or.inl rfl)⟩

/-- C1 counterexample: for the non-collection path
`/Library/Fonts/a.ttf` with both generators able to produce an
artifact, `getFontPreview`'s promise body runs the Vector Generator
(and returns its artifact) even though the claim routes non-collection
formats to the Raster Generator. -/
theorem getFontPreview_generator_order_counterexample :
    shouldSelectByPostscript "/Library/Fonts/a.ttf" = false ∧
      getFontPreviewCompute (some "v.svg") (some "p.png") =
        (some "v.svg", [PreviewGenerator.vector]) ∧
      resolvePreviewClaimed "/Library/Fonts/a.ttf" (some "v.svg")
          (some "p.png") =
        (some "p.png", [PreviewGenerator.raster]) ∧
      getFontPreviewCompute (some "v.svg") (some "p.png") ≠
        resolvePreviewClaimed "/Library/Fonts/a.ttf" (some "v.svg")
          (some "p.png") := by
  refine ⟨by decide, rfl, by decide, by decide⟩

/-- C1 (amended): `getFontPreview` tries the Vector Generator first for
every face and falls back to the Raster Generator exactly when vector
generation reports unavailable; the collection-container check
(`.ttc` / `.dfont`, case-insensitive on the extension) instead decides
whether the PostScript-name selector is passed when the face is opened
for vector generation. -/
theorem getFontPreview_vector_first (v : String)
    (rasterResult : Option String) (filePath : String)
    (postscriptName : Option String) :
    getFontPreviewCompute (some v) rasterResult =
        (some v, [PreviewGenerator.vector]) ∧
      getFontPreviewCompute none rasterResult =
        (rasterResult, [PreviewGenerator.vector, PreviewGenerator.raster]) ∧
      vectorOpenSelector filePath postscriptName =
        (if shouldSelectByPostscript filePath then postscriptName else none) ∧
      shouldSelectByPostscript filePath =
        ((strToLower (pathExtname filePath) == ".ttc") ||
          (strToLower (pathExtname filePath) == ".dfont")) :=
  ⟨rfl, rfl, rfl, rfl⟩

/-- `cacheLookup` of a key never finds an entry the settle handler just
deleted. -/
theorem find?_filter_not_key (l : List (String × Nat)) (key : String) :
    List.find? (fun kv => kv.1 == key)
      (l.filter (fun kv => !(kv.1 == key))) = none := by
  induction l with
  | nil => rfl
  | cons a l ih =>
    by_cases h : a.1 == key <;> simp [List.filter_cons, h, List.find?, ih]

/-- `cacheLookup` of a key never finds an entry the settle handler just
deleted. -/
theorem cacheLookup_settle (c : PreviewPromiseCache) (key : String) :
    cacheLookup (previewPromiseSettle c key) key = none := by
  unfold cacheLookup previewPromiseSettle
  rw [find?_filter_not_key]
  rfl

/-- A cache miss makes `getFontPreviewCall` allocate the next token and
store it under the key. -/
theorem getFontPreviewCall_miss (c : PreviewPromiseCache) (key : String)
    (h : cacheLookup c key = none) :
    getFontPreviewCall c key =
      (c.nextToken,
        { entries := c.entries ++ [(key, c.nextToken)],
          nextToken := c.nextToken + 1 }) := by
  unfold getFontPreviewCall
  rw [h]

/-- A cache hit makes `getFontPreviewCall` return the stored promise
unchanged. -/
theorem getFontPreviewCall_hit (c : PreviewPromiseCache) (key : String)
    (t : Nat) (h : cacheLookup c key = some t) :
    getFontPreviewCall c key = (t, c) := by
  unfold getFontPreviewCall
  rw [h]

/-- After a miss-and-store, the key is found with the stored token. -/
theorem cacheLookup_after_miss (c : PreviewPromiseCache) (key : String)
    (h : cacheLookup c key = none) :
    cacheLookup
      { entries := c.entries ++ [(key, c.nextToken)],
        nextToken := c.nextToken + 1 } key = some c.nextToken := by
  unfold cacheLookup at h ⊢
  rw [List.find?_append]
  have h' : List.find? (fun kv => kv.1 == key) c.entries = none :=
    Option.map_eq_none'.mp h
  simp [h', List.find?]

/-- C2 counterexample: the promise-cache entry does not survive the
computation — after the promise for `"k"` settles, the key is gone and
a later call allocates a fresh computation, contradicting caching "for
the lifetime of the process". -/
theorem previewCache_lifetime_counterexample :
    cacheLookup
        (previewPromiseSettle (getFontPreviewCall emptyPreviewPromiseCache
          "k").2 "k") "k" = none ∧
      (getFontPreviewCall
          (previewPromiseSettle (getFontPreviewCall emptyPreviewPromiseCache
            "k").2 "k") "k").1 ≠
        (getFontPreviewCall emptyPreviewPromiseCache "k").1 := by
  refine ⟨by decide, by decide⟩

/-- C2 (amended): while a computation for a key is in flight, a second
call for the same key returns the same in-flight promise and allocates
no new computation (concurrent callers share one generation), and the
entry is removed from the promise cache when the promise settles. -/
theorem previewCache_share_in_flight (c : PreviewPromiseCache) (key : String) :
    (getFontPreviewCall (getFontPreviewCall c key).2 key).1 =
        (getFontPreviewCall c key).1 ∧
      (getFontPreviewCall (getFontPreviewCall c key).2 key).2 =
        (getFontPreviewCall c key).2 ∧
      cacheLookup (getFontPreviewCall c key).2 key =
        some (getFontPreviewCall c key).1 ∧
      cacheLookup (previewPromiseSettle (getFontPreviewCall c key).2 key)
          key = none := by
  cases h : cacheLookup c key with
  | some t =>
    rw [getFontPreviewCall_hit c key t h]
    exact ⟨by rw [getFontPreviewCall_hit c key t h],
      by rw [getFontPreviewCall_hit c key t h], h, cacheLookup_settle _ _⟩
  | none =>
    rw [getFontPreviewCall_miss c key h]
    have h2 := cacheLookup_after_miss c key h
    exact ⟨by rw [getFontPreviewCall_hit _ key _ h2],
      by rw [getFontPreviewCall_hit _ key _ h2], h2, cacheLookup_settle _ _⟩

/-- A stored face record that passes every structural filter. -/
def validFaceJson : Json :=
  Json.obj [("id", Json.str "f1"), ("familyName", Json.str "Fam"),
    ("styleName", Json.str "Regular"), ("displayName", Json.str "Fam Regular"),
    ("filePath", Json.str "/Library/Fonts/Fam.ttf"),
    ("fileExt", Json.str "ttf"), ("source", Json.str "library"),
    ("fileMtimeMs", Json.num 5)]

/-- The `FontFace` carried by `validFaceJson`. -/
def validFace : FontFace :=
  { id := "f1", familyName := "Fam", styleName := "Regular",
    displayName := "Fam Regular", postscriptName := none, fullName := none,
    filePath := "/Library/Fonts/Fam.ttf", fileExt := "ttf",
    source := "library", fileMtimeMs := 5 }

/-- A persisted index document with the current version, one valid face
record and one record (`null`) that fails structural validation. -/
def corruptIndexJson : Json :=
  Json.obj [("version", Json.num 2),
    ("builtAt", Json.str "2024-01-01T00:00:00.000Z"),
    ("faces", Json.arr [validFaceJson, Json.null])]

/-- A persisted index document whose version is one less than current. -/
def versionOneIndexJson : Json :=
  Json.obj [("version", Json.num 1), ("builtAt", Json.str "x"),
    ("faces", Json.arr [])]

/-- C3 counterexample: a document containing one valid face record and
one invalid record does not load as absent — `loadFontIndex` drops the
invalid record and returns the partially-populated index built from the
remaining valid one. -/
theorem loadFontIndex_partial_counterexample :
    loadFontIndex (some corruptIndexJson) =
        some
          { version := FONT_INDEX_VERSION,
            builtAt := "2024-01-01T00:00:00.000Z", faces := [validFace] } ∧
      faceOfJson Json.null = none ∧
      loadFontIndex (some corruptIndexJson) ≠ none := by
  refine ⟨by decide, rfl, by decide⟩

/-- C3 (amended): `loadFontIndex` returns absent when the file is
unreadable or unparsable, the parsed document is falsy, the stored
version differs from the current schema version, or `faces` is not an
array; a face record that fails structural validation is dropped
individually, and the surviving records form the returned index — so a
partially corrupt `faces` array loads as a partially-populated index. -/
theorem loadFontIndex_amended :
    loadFontIndex none = none ∧
      (∀ (v : ℚ) (parsed : Json), parsed.getField "version" =
          some (Json.num v) → v ≠ (FONT_INDEX_VERSION : ℚ) →
          loadFontIndex (some parsed) = none) ∧
      (∀ parsed : Json, parsed.getField "version" = none →
        loadFontIndex (some parsed) = none) ∧
      (∀ (parsed : Json) (rawFaces : List Json), jsFalsy parsed = false →
        parsed.getField "version" = some (Json.num 2) →
        parsed.getField "faces" = some (Json.arr rawFaces) →
        loadFontIndex (some parsed) =
          some
            { version := FONT_INDEX_VERSION,
              builtAt :=
                match parsed.getField "builtAt" with
                | some (Json.str s) => s
                | _ => epochIso,
              faces := rawFaces.filterMap faceOfJson }) ∧
      (∀ f : Json, (faceOfJson f).isSome = isValidFaceJson f) := by
  refine ⟨rfl, ?_, ?_, ?_, ?_⟩
  · intro v parsed hv hne
    unfold loadFontIndex
    by_cases hf : jsFalsy parsed
    · simp [hf]
    · simp only [hf, if_false, Bool.false_eq_true, hv]
      simp [show ¬(v = (FONT_INDEX_VERSION : ℚ)) from hne]
  · intro parsed hv
    unfold loadFontIndex
    by_cases hf : jsFalsy parsed
    · simp [hf]
    · simp [hf, hv]
  · intro parsed rawFaces hf hv hfaces
    unfold loadFontIndex
    simp [hf, hv, hfaces, FONT_INDEX_VERSION]
  · intro f
    unfold faceOfJson
    by_cases h : isValidFaceJson f <;> simp [h]

/-- C3 witness: the amended theorem applied to the version-1 document
(rejected as absent) and to the partially corrupt document (loaded with
only the valid record). -/
theorem loadFontIndex_amended_witness :
    loadFontIndex (some versionOneIndexJson) = none ∧
      loadFontIndex (some corruptIndexJson) =
        some
          { version := FONT_INDEX_VERSION,
            builtAt := "2024-01-01T00:00:00.000Z",
            faces := [validFaceJson, Json.null].filterMap faceOfJson } :=
  ⟨loadFontIndex_amended.2.1 1 versionOneIndexJson rfl
      (by norm_num [FONT_INDEX_VERSION]),
    loadFontIndex_amended.2.2.2.1 corruptIndexJson [validFaceJson, Json.null]
      (by decide) rfl rfl⟩

/-- The collecting loop equals "take up to the missing count of the
usable elements, in scan order". -/
theorem pickFallbackLoop_eq (usable : Nat → Bool) (l : List Nat) :
    ∀ picked : List Nat, picked.length < 2 →
      pickFallbackLoop usable picked l =
        picked ++ (l.filter usable).take (2 - picked.length) := by
  induction l with
  | nil => intro picked _; simp [pickFallbackLoop]
  | cons cp rest ih =>
    intro picked hlt
    unfold pickFallbackLoop
    by_cases hu : usable cp
    · simp only [hu, if_true]
      by_cases h2 : 2 ≤ (picked ++ [cp]).length
      · have hlen : picked.length = 1 := by
          simp only [List.length_append, List.length_cons,
            List.length_nil] at h2
          omega
        simp only [h2, if_true, List.filter_cons, hu, hlen]
        simp
      · have hlen : picked.length = 0 := by
          simp only [List.length_append, List.length_cons,
            List.length_nil] at h2
          omega
        have hnil : picked = [] := List.length_eq_zero.mp hlen
        simp only [h2, if_false]
        rw [ih (picked ++ [cp]) (by simp [hlen])]
        simp [hnil, List.filter_cons, hu]
    · simp only [hu, if_false]
      rw [ih picked hlt]
      simp [List.filter_cons, hu]


/-- Unfolding equation of `pickFallbackSample` on a present coverage
set. -/
theorem pickFallbackSample_some_eq (ws alnum : Nat → Bool) (cs : List Nat) :
    pickFallbackSample ws alnum (some cs) =
      (if cs.length = 0 then none
       else
         if (pickFallbackLoop (fallbackCpUsable ws alnum) []
             (List.insertionSort (fun a b => a ≤ b) cs)).length = 0 then none
         else
           some (pickFallbackLoop (fallbackCpUsable ws alnum) []
             (List.insertionSort (fun a b => a ≤ b) cs))) := rfl

/-- C6: when no candidate sample string is fully renderable, the chosen
sample text is the fallback scan's result, or `"Aa"` when the scan
collects nothing; the scan takes the first (at most) two usable code
points of the coverage set in ascending order — usable in the sense of
`fallbackCpUsable` (not a control character, not beyond U+10FFFF, not
in the private-use area, not whitespace, a letter or number) — and it
collects nothing exactly when the coverage set has no usable code
point. -/
theorem pickSampleText_fallback (ws alnum : Nat → Bool) (font : Font)
    (familyName : Option String)
    (h : ∀ sample ∈ SAMPLE_TEXT_CANDIDATES,
      canRenderText font sample (getCharacterSet font) = false) :
    (pickSampleText ws alnum font familyName =
      match pickFallbackSample ws alnum (getCharacterSet font) with
      | some fallback => fallback
      | none => textCodePoints "Aa") ∧
    (∀ (cs : List Nat) (l : List Nat),
      pickFallbackSample ws alnum (some cs) = some l →
      l = ((List.insertionSort (fun a b => a ≤ b) cs).filter
        (fallbackCpUsable ws alnum)).take 2 ∧
      l ≠ [] ∧ l.length ≤ 2 ∧ l.Sorted (· ≤ ·) ∧
      ∀ cp ∈ l, cp ∈ cs ∧ fallbackCpUsable ws alnum cp = true) ∧
    (∀ cs : List Nat,
      pickFallbackSample ws alnum (some cs) = none ↔
        ∀ cp ∈ cs, fallbackCpUsable ws alnum cp = false) := by
  have hfind : SAMPLE_TEXT_CANDIDATES.find?
      (fun sample => canRenderText font sample (getCharacterSet font)) =
        none :=
    List.find?_eq_none.mpr (fun x hx => by simp [h x hx])
  have hloop : ∀ cs : List Nat,
      pickFallbackLoop (fallbackCpUsable ws alnum) []
        (List.insertionSort (fun a b => a ≤ b) cs) =
      ((List.insertionSort (fun a b => a ≤ b) cs).filter
        (fallbackCpUsable ws alnum)).take 2 := fun cs => by
    rw [pickFallbackLoop_eq (fallbackCpUsable ws alnum)
      (List.insertionSort (fun a b => a ≤ b) cs) [] (by norm_num)]
    simp
  refine ⟨?_, ?_, ?_⟩
  · unfold pickSampleText
    simp only [hfind]
    have htrad := h hanTrad (by decide)
    have hsimp := h hanSimp (by decide)
    by_cases hpf : pingFangTest (strTrim (familyName.getD ""))
    · by_cases hhk : hkMoTcTest (strTrim (familyName.getD "")) <;>
        simp [hpf, hhk, htrad, hsimp,
          show hanSimp ≠ hanTrad from by decide]
    · simp [hpf]
  · intro cs l hl
    rw [pickFallbackSample_some_eq] at hl
    by_cases hz : cs.length = 0
    · rw [if_pos hz] at hl
      exact Option.noConfusion hl
    · rw [if_neg hz] at hl
      rw [hloop cs] at hl
      by_cases hp : (((List.insertionSort (fun a b => a ≤ b) cs).filter
          (fallbackCpUsable ws alnum)).take 2).length = 0
      · rw [if_pos hp] at hl
        exact Option.noConfusion hl
      · rw [if_neg hp] at hl
        have hl' := Option.some.inj hl
        subst hl'
        have hsub : (((List.insertionSort (fun a b => a ≤ b) cs).filter
            (fallbackCpUsable ws alnum)).take 2).Sublist
            (List.insertionSort (fun a b => a ≤ b) cs) :=
          (List.take_sublist _ _).trans (List.filter_sublist _)
        refine ⟨rfl, fun hnil => hp (by simp [hnil]), List.length_take_le _ _,
          ?_, ?_⟩
        · exact List.Pairwise.sublist hsub
            (List.sorted_insertionSort (fun a b => a ≤ b) cs)
        · intro cp hcp
          have hmem := List.mem_of_mem_take hcp
          rw [List.mem_filter] at hmem
          exact ⟨(List.perm_insertionSort (fun a b => a ≤ b) cs).subset
            hmem.1, hmem.2⟩
  · intro cs
    rw [pickFallbackSample_some_eq]
    by_cases hz : cs.length = 0
    · rw [if_pos hz]
      have : cs = [] := List.length_eq_zero.mp hz
      subst this
      simp
    · rw [if_neg hz, hloop cs]
      constructor
      · intro hnone cp hcp
        by_cases hu : fallbackCpUsable ws alnum cp
        · exfalso
          have hmemsorted : cp ∈ List.insertionSort (fun a b => a ≤ b) cs :=
            (List.perm_insertionSort (fun a b => a ≤ b) cs).mem_iff.mpr hcp
          have hmemfilter : cp ∈ (List.insertionSort (fun a b => a ≤ b)
              cs).filter (fallbackCpUsable ws alnum) :=
            List.mem_filter.mpr ⟨hmemsorted, hu⟩
          rcases hf : (List.insertionSort (fun a b => a ≤ b) cs).filter
              (fallbackCpUsable ws alnum) with _ | ⟨a, rest⟩
          · rw [hf] at hmemfilter
            exact absurd hmemfilter (List.not_mem_nil cp)
          · rw [hf] at hnone
            simp at hnone
        · exact eq_false_of_ne_true hu
      · intro hall
        have hfilter : (List.insertionSort (fun a b => a ≤ b) cs).filter
            (fallbackCpUsable ws alnum) = [] := by
          rw [List.filter_eq_nil_iff]
          intro a ha
          have hmem : a ∈ cs :=
            (List.perm_insertionSort (fun a b => a ≤ b) cs).subset ha
          simp [hall a hmem]
        simp [hfilter]

/-- A concrete instantiation of the `/^\s$/u` class (ASCII part). -/
def asciiWs (codePoint : Nat) : Bool :=
  codePoint == 9 || codePoint == 10 || codePoint == 11 || codePoint == 12 ||
    codePoint == 13 || codePoint == 32

/-- A concrete instantiation of the `/[\p{L}\p{N}]/u` class (ASCII
letters and digits). -/
def asciiAlnum (codePoint : Nat) : Bool :=
  (48 ≤ codePoint && codePoint ≤ 57) || (65 ≤ codePoint && codePoint ≤ 90) ||
    (97 ≤ codePoint && codePoint ≤ 122)

/-- A glyph with a real id, an advance and an outline. -/
def demoGlyph : Glyph :=
  { id := some 1, advanceWidth := some 600,
    scaledPathSvg := fun _ => some "M0 0L1 1Z" }

/-- A face that covers only the Latin capital `A` (U+0041): every
candidate sample string needs at least one other code point, so none is
fully renderable. -/
def demoFontLatinOnly : Font :=
  { characterSet := some [65]
    glyphForCodePoint := fun codePoint =>
      if codePoint == 65 then some demoGlyph else none
    layout := fun _ => none
    unitsPerEm := some 1000
    ascent := some 800
    descent := some (-200) }

/-- C6 witness: the theorem applied to the Latin-`A`-only face — the
fallback scan returns the non-empty Latin sample `[65]` of length ≤ 2,
and on an empty coverage-set variant the scan reports nothing. -/
theorem pickSampleText_fallback_witness :
    pickSampleText asciiWs asciiAlnum demoFontLatinOnly
        (some "LatinOnly") = [65] ∧
      pickFallbackSample asciiWs asciiAlnum (some [65]) = some [65] ∧
      ([65] ≠ ([] : List Nat) ∧ ([65] : List Nat).length ≤ 2) ∧
      (pickFallbackSample asciiWs asciiAlnum (some [1]) = none ↔
        ∀ cp ∈ [1], fallbackCpUsable asciiWs asciiAlnum cp = false) := by
  have h := pickSampleText_fallback asciiWs asciiAlnum demoFontLatinOnly
    (some "LatinOnly") (by decide)
  have hsome : pickFallbackSample asciiWs asciiAlnum (some [65]) =
      some [65] := by decide
  refine ⟨h.1.trans (by decide), hsome, ?_, h.2.2 [1]⟩
  have hprops := h.2.1 [65] [65] hsome
  exact ⟨hprops.2.1, hprops.2.2.1⟩

/-- When no glyph of the run can produce outline data (its scaled path
is absent or empty at every size), the glyph loop collects no paths. -/
theorem buildGlyphPaths_eq_nil (useFb : Bool) (scale fsz sx by_ : ℚ) :
    ∀ (pairs : List (Glyph × GlyphPos)) (penX : ℚ),
      (∀ gp ∈ pairs, ∀ size : ℚ, gp.1.scaledPathSvg size = none ∨
        gp.1.scaledPathSvg size = some "") →
      buildGlyphPaths useFb scale fsz sx by_ penX pairs = [] := by
  intro pairs
  induction pairs with
  | nil => intro penX _; rfl
  | cons hd tl ih =>
    intro penX h
    have htl := fun gp hgp => h gp (List.mem_cons_of_mem hd hgp)
    have hhd := h hd (List.mem_cons_self hd tl)
    simp only [buildGlyphPaths]
    rcases hhd fsz with hnone | hempty
    · simp [hnone, ih _ htl]
    · simp [hempty, ih _ htl]

/-- C7: the vector generator's run width is the sum of the shaped
advances, replaced by the sum of the glyphs' own advance widths when
the shaped sum is degenerate (not positive); the run height is
ascent − descent with ascent falling back to 80% and descent to −20% of
units-per-em when the face reports non-finite values; the generator
reports unavailable whenever the run width or run height is
non-positive, and whenever zero glyphs produce outline path data; and
`buildVectorPreviewSvg` hands a successfully opened and laid-out run to
exactly this geometry. -/
theorem vectorPreview_geometry (glyphs : List Glyph)
    (positions : List GlyphPos) (upem asc desc : Option ℚ)
    (fam : Option String) :
    (0 < positionRunWidthUnits positions →
      computeRunWidthUnits glyphs positions = positionRunWidthUnits positions) ∧
    (positionRunWidthUnits positions ≤ 0 →
      computeRunWidthUnits glyphs positions = glyphRunWidthUnits glyphs) ∧
    (computeAscentUnits none (computeUnitsPerEm upem) =
        computeUnitsPerEm upem * (4 / 5) ∧
      computeDescentUnits none (computeUnitsPerEm upem) =
        -(computeUnitsPerEm upem * (1 / 5)) ∧
      (∀ a : ℚ, computeAscentUnits (some a) (computeUnitsPerEm upem) = a) ∧
      (∀ d : ℚ, computeDescentUnits (some d) (computeUnitsPerEm upem) = d)) ∧
    ((computeRunWidthUnits glyphs positions ≤ 0 ∨
        computeAscentUnits asc (computeUnitsPerEm upem) -
          computeDescentUnits desc (computeUnitsPerEm upem) ≤ 0) →
      renderGlyphRun glyphs positions upem asc desc fam = none) ∧
    ((∀ gp ∈ glyphs, ∀ size : ℚ, gp.scaledPathSvg size = none ∨
        gp.scaledPathSvg size = some "") →
      renderGlyphRun glyphs positions upem asc desc fam = none) ∧
    (∀ (ws alnum : Nat → Bool)
      (openFont : String → Option String → Option Font)
      (filePath : String) (psName : Option String) (font : Font)
      (run : LayoutRun),
      openFont filePath (vectorOpenSelector filePath psName) = some font →
      font.layout (pickSampleText ws alnum font fam) = some run →
      run.glyphs.getD [] ≠ [] →
      (run.glyphs.getD []).length = (run.positions.getD []).length →
      buildVectorPreviewSvg ws alnum openFont filePath psName fam =
        renderGlyphRun (run.glyphs.getD []) (run.positions.getD [])
          font.unitsPerEm font.ascent font.descent fam) := by
  refine ⟨?_, ?_, ⟨rfl, rfl, fun _ => rfl, fun _ => rfl⟩, ?_, ?_, ?_⟩
  · intro hpos
    unfold computeRunWidthUnits
    rw [if_neg (not_le.mpr hpos)]
  · intro hneg
    unfold computeRunWidthUnits
    rw [if_pos hneg]
  · intro h
    simp only [renderGlyphRun]
    rw [if_pos h]
  · intro h
    simp only [renderGlyphRun]
    split
    · rfl
    · split
      · rfl
      · rw [buildGlyphPaths_eq_nil _ _ _ _ _ _ _
          (fun gp hgp => h gp.1 (List.of_mem_zip hgp).1)]
        simp
  · intro ws alnum openFont filePath psName font run hopen hlayout hne hlen
    simp only [buildVectorPreviewSvg, hopen, hlayout]
    have h0 : ¬((run.glyphs.getD []).length = 0) := fun hc =>
      hne (List.length_eq_zero.mp hc)
    simp [h0, hlen]
    intro hpnil
    exact absurd (hlen.trans (by simp [hpnil])) h0

/-- A shaped position advancing 10 design units. -/
def demoPos10 : GlyphPos :=
  { xAdvance := some 10, xOffset := none, yOffset := none }

/-- A shaped position with a zero advance. -/
def demoPos0 : GlyphPos :=
  { xAdvance := some 0, xOffset := none, yOffset := none }

/-- A glyph that never yields outline data. -/
def demoNoOutlineGlyph : Glyph :=
  { id := some 1, advanceWidth := some 7, scaledPathSvg := fun _ => none }

/-- A one-glyph layout run. -/
def demoRun : LayoutRun :=
  { glyphs := some [demoNoOutlineGlyph], positions := some [demoPos10] }

/-- A face whose layout produces `demoRun`. -/
def demoRunFont : Font :=
  { characterSet := some [65]
    glyphForCodePoint := fun codePoint =>
      if codePoint == 65 then some demoGlyph else none
    layout := fun _ => some demoRun
    unitsPerEm := some 1000
    ascent := some 800
    descent := some (-200) }

/-- A parser that opens every path as `demoRunFont`. -/
def demoOpenFont : String → Option String → Option Font :=
  fun _ _ => some demoRunFont

/-- C7 witness: the geometry theorem applied at concrete runs — a
positive shaped sum is kept, a zero shaped sum falls back to the glyph
advances, an empty run is unavailable, a run with no outline data is
unavailable, and `buildVectorPreviewSvg` delegates the demo face's run
to the geometry. -/
theorem vectorPreview_geometry_witness :
    computeRunWidthUnits [demoNoOutlineGlyph] [demoPos10] =
        positionRunWidthUnits [demoPos10] ∧
      computeRunWidthUnits [demoNoOutlineGlyph] [demoPos0] =
        glyphRunWidthUnits [demoNoOutlineGlyph] ∧
      renderGlyphRun [] [] none none none none = none ∧
      renderGlyphRun [demoNoOutlineGlyph] [demoPos10] (some 1000) (some 800)
        (some (-200)) (some "Fam") = none ∧
      buildVectorPreviewSvg asciiWs asciiAlnum demoOpenFont
          "/Library/Fonts/a.ttf" none (some "Fam") =
        renderGlyphRun [demoNoOutlineGlyph] [demoPos10] (some 1000) (some 800)
          (some (-200)) (some "Fam") :=
  ⟨(vectorPreview_geometry [demoNoOutlineGlyph] [demoPos10] none none none
      none).1 (by norm_num [positionRunWidthUnits, demoPos10]),
    (vectorPreview_geometry [demoNoOutlineGlyph] [demoPos0] none none none
      none).2.1 (by norm_num [positionRunWidthUnits, demoPos0]),
    (vectorPreview_geometry [] [] none none none none).2.2.2.1
      (Or.inl (by norm_num [computeRunWidthUnits, positionRunWidthUnits,
        glyphRunWidthUnits])),
    (vectorPreview_geometry [demoNoOutlineGlyph] [demoPos10] (some 1000)
      (some 800) (some (-200)) (some "Fam")).2.2.2.2.1
      (fun gp hgp size => by
        rw [List.mem_singleton] at hgp
        subst hgp
        exact Or.inl rfl),
    (vectorPreview_geometry (demoRun.glyphs.getD []) (demoRun.positions.getD
      []) (some 1000) (some 800) (some (-200)) (some "Fam")).2.2.2.2.2
      asciiWs asciiAlnum demoOpenFont "/Library/Fonts/a.ttf" none demoRunFont
      demoRun rfl rfl (by simp [demoRun]) rfl⟩

/-! ## Grouping lemmas -/

/-- The `byFamily` map, described directly: one entry per distinct
family name in first-occurrence order, carrying the faces of that
family in input order. -/
def groupsOf (faces : List FontFace) : List (String × List FontFace) :=
  (firstOccur (faces.map FontFace.familyName)).map
    (fun name => (name, faces.filter (fun f => f.familyName == name)))

/-- Membership in a first-occurrence deduplication. -/
theorem mem_firstOccur {α : Type} [DecidableEq α] (l : List α) (x : α) :
    x ∈ firstOccur l ↔ x ∈ l := by
  suffices h : ∀ (l : List α) (acc : List α),
      x ∈ l.foldl insertNew acc ↔ x ∈ acc ∨ x ∈ l by
    rw [firstOccur, h l []]
    simp
  intro l
  induction l with
  | nil => intro acc; simp
  | cons a l ih =>
    intro acc
    rw [List.foldl_cons, ih (insertNew acc a)]
    unfold insertNew
    by_cases h : a ∈ acc
    · simp only [h, if_true, List.mem_cons]
      constructor
      · rintro (hx | hx)
        · exact Or.inl hx
        · exact Or.inr (Or.inr hx)
      · rintro (hx | hx | hx)
        · exact Or.inl hx
        · exact Or.inl (hx ▸ h)
        · exact Or.inr hx
    · simp only [h, if_false, List.mem_append, List.mem_singleton,
        List.mem_cons]
      tauto

/-- First-occurrence deduplication has no duplicates. -/
theorem nodup_firstOccur {α : Type} [DecidableEq α] (l : List α) :
    (firstOccur l).Nodup := by
  suffices h : ∀ (l : List α) (acc : List α), acc.Nodup →
      (l.foldl insertNew acc).Nodup from h l [] List.nodup_nil
  intro l
  induction l with
  | nil => intro acc hacc; exact hacc
  | cons a l ih =>
    intro acc hacc
    rw [List.foldl_cons]
    refine ih (insertNew acc a) ?_
    unfold insertNew
    by_cases h : a ∈ acc
    · simpa [h]
    · simp [h, List.nodup_append, hacc]

/-- Appending one element to the scanned list inserts its value. -/
theorem firstOccur_append_singleton {α : Type} [DecidableEq α] (l : List α)
    (a : α) : firstOccur (l ++ [a]) = insertNew (firstOccur l) a := by
  unfold firstOccur
  rw [List.foldl_append]
  rfl

/-- One `addFace` step agrees with the direct description. -/
theorem addFace_groupsOf (pre : List FontFace) (f : FontFace) :
    addFace (groupsOf pre) f = groupsOf (pre ++ [f]) := by
  have hnames : (pre ++ [f]).map FontFace.familyName =
      pre.map FontFace.familyName ++ [f.familyName] := by simp
  unfold addFace
  by_cases hmem : f.familyName ∈ firstOccur (pre.map FontFace.familyName)
  · have hany : (groupsOf pre).any (fun kv => kv.1 == f.familyName) = true :=
      List.any_eq_true.mpr
        ⟨(f.familyName, pre.filter (fun g => g.familyName == f.familyName)),
          List.mem_map.mpr ⟨f.familyName, hmem, rfl⟩, by simp⟩
    rw [if_pos hany]
    unfold groupsOf
    rw [hnames, firstOccur_append_singleton]
    unfold insertNew
    rw [if_pos hmem, List.map_map]
    refine List.map_congr_left (fun name _ => ?_)
    by_cases hn : name = f.familyName
    · subst hn
      simp [List.filter_append]
    · have hb : (name == f.familyName) = false := by
        simp [hn]
      have hb' : (f.familyName == name) = false := by
        simp only [beq_eq_false_iff_ne, ne_eq]
        exact fun h => hn h.symm
      simp [Function.comp, hb, List.filter_append, hb']
  · have hany : (groupsOf pre).any (fun kv => kv.1 == f.familyName) = false := by
      rw [List.any_eq_false]
      rintro kv hkv
      obtain ⟨name, hname, rfl⟩ := List.mem_map.mp hkv
      simp only [beq_iff_eq]
      exact fun h => hmem (h ▸ hname)
    rw [if_neg (by simp [hany])]
    unfold groupsOf
    rw [hnames, firstOccur_append_singleton]
    unfold insertNew
    rw [if_neg hmem, List.map_append]
    congr 1
    · refine List.map_congr_left (fun name hname => ?_)
      have hn : ¬(f.familyName = name) := fun h => hmem (h ▸ hname)
      have hb : (f.familyName == name) = false := by simp [hn]
      simp [List.filter_append, hb]
    · have hfilter : pre.filter (fun g => g.familyName == f.familyName) = [] := by
        rw [List.filter_eq_nil_iff]
        intro g hg
        simp only [beq_iff_eq]
        intro h
        exact hmem ((mem_firstOccur _ _).mpr
          (h ▸ List.mem_map_of_mem FontFace.familyName hg))
      simp [List.filter_append, hfilter]

/-- The `byFamily` fold computes the direct description. -/
theorem groupByFamily_eq_groupsOf (faces : List FontFace) :
    groupByFamily faces = groupsOf faces := by
  suffices h : ∀ (post pre : List FontFace),
      post.foldl addFace (groupsOf pre) = groupsOf (pre ++ post) by
    have := h faces []
    simpa [groupByFamily, groupsOf, firstOccur] using this
  intro post
  induction post with
  | nil => intro pre; simp
  | cons f post ih =>
    intro pre
    rw [List.foldl_cons, addFace_groupsOf, ih (pre ++ [f])]
    simp

/-- Counting a face in the concatenation of the per-name filters. -/
theorem count_flatMap_filter (faces : List FontFace) (x : FontFace) :
    ∀ names : List String, names.Nodup →
      (names.flatMap (fun name =>
        faces.filter (fun f => f.familyName == name))).count x =
      if x.familyName ∈ names then faces.count x else 0 := by
  intro names
  induction names with
  | nil => simp
  | cons n ns ih =>
    intro hnodup
    rw [List.flatMap_cons, List.count_append]
    have hns := (List.nodup_cons.mp hnodup).2
    have hnin := (List.nodup_cons.mp hnodup).1
    rw [ih hns]
    by_cases hx : x.familyName = n
    · have hxn : x.familyName ∉ ns := hx ▸ hnin
      rw [List.count_filter (by simp [hx])]
      simp [hx, hxn, hnin]
    · have h0 : x ∉ faces.filter (fun f => f.familyName == n) := by
        intro hmem
        exact hx (by simpa using (List.mem_filter.mp hmem).2)
      rw [List.count_eq_zero.mpr h0]
      by_cases hxs : x.familyName ∈ ns <;> simp [hx, hxs]

/-- The groups' face lists together form a permutation of the input. -/
theorem groupsOf_join_perm (faces : List FontFace) :
    ((groupsOf faces).flatMap (fun kv => kv.2)).Perm faces := by
  rw [List.perm_iff_count]
  intro x
  unfold groupsOf
  rw [List.flatMap_map,
    count_flatMap_filter faces x _ (nodup_firstOccur _)]
  by_cases hx : x.familyName ∈ firstOccur (faces.map FontFace.familyName)
  · simp [hx]
  · rw [if_neg hx]
    symm
    rw [List.count_eq_zero]
    intro hmem
    exact hx ((mem_firstOccur _ _).mpr
      (List.mem_map_of_mem FontFace.familyName hmem))

/-- A family's faces, sorted by style name under the collator. -/
def sortFamilyFaces (cmp : String → String → Int) (l : List FontFace) :
    List FontFace :=
  List.insertionSort (fun a b => cmp a.styleName b.styleName ≤ 0) l

/-- The `FontFamily` record built from one `byFamily` entry. -/
def mkFamily (cmp : String → String → Int) (kv : String × List FontFace) :
    FontFamily :=
  { id := sha1 kv.1
    familyName := kv.1
    faces := sortFamilyFaces cmp kv.2
    representativeFaceId :=
      ((pickRepresentativeFace (sortFamilyFaces cmp kv.2)).map
        FontFace.id).getD "" }

/-- `groupIntoFamilies`, through the direct description of the map. -/
theorem groupIntoFamilies_eq (cmp : String → String → Int)
    (faces : List FontFace) :
    groupIntoFamilies cmp faces =
      List.insertionSort (fun a b => cmp a.familyName b.familyName ≤ 0)
        ((groupsOf faces).map (mkFamily cmp)) := by
  unfold groupIntoFamilies mkFamily sortFamilyFaces
  rw [groupByFamily_eq_groupsOf]

/-- Membership in the grouped families, reduced to the direct map. -/
theorem mem_groupIntoFamilies (cmp : String → String → Int)
    (faces : List FontFace) (fam : FontFamily) :
    fam ∈ groupIntoFamilies cmp faces ↔
      ∃ kv ∈ groupsOf faces, fam = mkFamily cmp kv := by
  rw [groupIntoFamilies_eq,
    (List.perm_insertionSort _ _).mem_iff]
  constructor
  · intro h
    obtain ⟨kv, hkv, rfl⟩ := List.mem_map.mp h
    exact ⟨kv, hkv, rfl⟩
  · rintro ⟨kv, hkv, rfl⟩
    exact List.mem_map.mpr ⟨kv, hkv, rfl⟩

/-- C4: `groupIntoFamilies` partitions by exact family-name equality —
every face of a returned family carries that family's name, and every
input face lands in a family carrying its name; within a family the
faces are sorted by `styleName` under the collator (assuming the
collator is transitive and total, as `localeCompare` is); and the
representative-face id is the id of the first face in sorted order
whose trimmed, lower-cased style name is `"regular"`, or of the first
face in sorted order when no such face exists. -/
theorem groupIntoFamilies_contract (cmp : String → String → Int)
    (faces : List FontFace)
    (htrans : ∀ a b c : String, cmp a b ≤ 0 → cmp b c ≤ 0 → cmp a c ≤ 0)
    (htotal : ∀ a b : String, cmp a b ≤ 0 ∨ cmp b a ≤ 0) :
    (∀ fam ∈ groupIntoFamilies cmp faces, ∀ f ∈ fam.faces,
      f.familyName = fam.familyName) ∧
    (∀ f ∈ faces, ∃ fam ∈ groupIntoFamilies cmp faces,
      fam.familyName = f.familyName ∧ f ∈ fam.faces) ∧
    (∀ fam ∈ groupIntoFamilies cmp faces,
      List.Sorted (fun a b => cmp a.styleName b.styleName ≤ 0) fam.faces) ∧
    (∀ fam ∈ groupIntoFamilies cmp faces,
      (∀ r, fam.faces.find? isRegularStyle = some r →
        fam.representativeFaceId = r.id) ∧
      (fam.faces.find? isRegularStyle = none →
        ∀ h0, fam.faces.head? = some h0 →
          fam.representativeFaceId = h0.id)) := by
  refine ⟨?_, ?_, ?_, ?_⟩
  · intro fam hfam f hf
    obtain ⟨kv, hkv, rfl⟩ := (mem_groupIntoFamilies cmp faces fam).mp hfam
    obtain ⟨name, _, rfl⟩ := List.mem_map.mp hkv
    have hf2 : f ∈ faces.filter (fun g => g.familyName == name) :=
      (List.perm_insertionSort _ _).subset hf
    simpa using (List.mem_filter.mp hf2).2
  · intro f hf
    have hname : f.familyName ∈ firstOccur (faces.map FontFace.familyName) :=
      (mem_firstOccur _ _).mpr (List.mem_map_of_mem FontFace.familyName hf)
    refine ⟨mkFamily cmp (f.familyName,
      faces.filter (fun g => g.familyName == f.familyName)), ?_, rfl, ?_⟩
    · exact (mem_groupIntoFamilies cmp faces _).mpr
        ⟨_, List.mem_map.mpr ⟨f.familyName, hname, rfl⟩, rfl⟩
    · exact (List.perm_insertionSort _ _).mem_iff.mpr
        (List.mem_filter.mpr ⟨hf, by simp⟩)
  · intro fam hfam
    obtain ⟨kv, _, rfl⟩ := (mem_groupIntoFamilies cmp faces fam).mp hfam
    haveI : IsTotal FontFace (fun a b => cmp a.styleName b.styleName ≤ 0) :=
      ⟨fun a b => htotal a.styleName b.styleName⟩
    haveI : IsTrans FontFace (fun a b => cmp a.styleName b.styleName ≤ 0) :=
      ⟨fun a b c hab hbc => htrans a.styleName b.styleName c.styleName hab hbc⟩
    exact List.sorted_insertionSort _ kv.2
  · intro fam hfam
    obtain ⟨kv, _, rfl⟩ := (mem_groupIntoFamilies cmp faces fam).mp hfam
    have hfaces : (mkFamily cmp kv).faces = sortFamilyFaces cmp kv.2 := rfl
    constructor
    · intro r hr
      rw [hfaces] at hr
      show ((pickRepresentativeFace (sortFamilyFaces cmp kv.2)).map
        FontFace.id).getD "" = r.id
      unfold pickRepresentativeFace
      rw [hr]
      rfl
    · intro hnone h0 hh0
      rw [hfaces] at hnone hh0
      show ((pickRepresentativeFace (sortFamilyFaces cmp kv.2)).map
        FontFace.id).getD "" = h0.id
      unfold pickRepresentativeFace
      rw [hnone, hh0]
      rfl

/-- A concrete consistent comparator standing in for the collator:
compare string lengths (negative / zero / positive, as in JS). -/
def demoCmp (a b : String) : Int :=
  (a.length : Int) - (b.length : Int)

/-- `demoCmp a b ≤ 0` is the length order. -/
theorem demoCmp_le_iff (a b : String) :
    demoCmp a b ≤ 0 ↔ (a.length : Int) ≤ (b.length : Int) := by
  unfold demoCmp
  omega

/-- The demo comparator is transitive on the non-positive side. -/
theorem demoCmp_trans : ∀ a b c : String,
    demoCmp a b ≤ 0 → demoCmp b c ≤ 0 → demoCmp a c ≤ 0 := fun a b c hab hbc =>
  (demoCmp_le_iff a c).mpr
    (le_trans ((demoCmp_le_iff a b).mp hab) ((demoCmp_le_iff b c).mp hbc))

/-- The demo comparator is total. -/
theorem demoCmp_total : ∀ a b : String,
    demoCmp a b ≤ 0 ∨ demoCmp b a ≤ 0 := fun a b =>
  (le_total ((a.length : Int)) ((b.length : Int))).imp
    (demoCmp_le_iff a b).mpr (demoCmp_le_iff b a).mpr

/-- `Arial Regular`. -/
def arialRegular : FontFace :=
  { id := "a-reg", familyName := "Arial", styleName := "Regular",
    displayName := "Arial Regular", postscriptName := some "ArialMT",
    fullName := none, filePath := "/Library/Fonts/Arial.ttf",
    fileExt := "ttf", source := "library", fileMtimeMs := 1 }

/-- `Arial Bold`. -/
def arialBold : FontFace :=
  { id := "a-bold", familyName := "Arial", styleName := "Bold",
    displayName := "Arial Bold", postscriptName := some "Arial-BoldMT",
    fullName := none, filePath := "/Library/Fonts/Arial Bold.ttf",
    fileExt := "ttf", source := "library", fileMtimeMs := 1 }

/-- `Helvetica Regular`. -/
def helveticaRegular : FontFace :=
  { id := "h-reg", familyName := "Helvetica", styleName := "Regular",
    displayName := "Helvetica Regular", postscriptName := some "Helvetica",
    fullName := none, filePath := "/System/Library/Fonts/Helvetica.ttc",
    fileExt := "ttc", source := "system", fileMtimeMs := 2 }

/-- The spec's grouping test set. -/
def demoFaces : List FontFace :=
  [arialRegular, arialBold, helveticaRegular]

/-- C4 witness: the theorem applied to the faces `{Arial Regular,
Arial Bold, Helvetica Regular}` under the code-point collator. -/
theorem groupIntoFamilies_contract_witness :
    (∀ fam ∈ groupIntoFamilies demoCmp demoFaces, ∀ f ∈ fam.faces,
      f.familyName = fam.familyName) ∧
    (∀ fam ∈ groupIntoFamilies demoCmp demoFaces,
      List.Sorted (fun a b => demoCmp a.styleName b.styleName ≤ 0)
        fam.faces) :=
  ⟨(groupIntoFamilies_contract demoCmp demoFaces demoCmp_trans
      demoCmp_total).1,
    (groupIntoFamilies_contract demoCmp demoFaces demoCmp_trans
      demoCmp_total).2.2.1⟩

/-- C10: every returned family is non-empty; its representative-face id
is the id of one of its faces; the family names of the result are
pairwise distinct; a face belongs to a returned family exactly when it
is an input face with that family's name; and the families' face lists
together are a permutation of the input. -/
theorem groupIntoFamilies_partition (cmp : String → String → Int)
    (faces : List FontFace) :
    (∀ fam ∈ groupIntoFamilies cmp faces,
      fam.faces ≠ [] ∧ ∃ f ∈ fam.faces, fam.representativeFaceId = f.id) ∧
    ((groupIntoFamilies cmp faces).map FontFamily.familyName).Nodup ∧
    (∀ fam ∈ groupIntoFamilies cmp faces, ∀ f : FontFace,
      f ∈ fam.faces ↔ f ∈ faces ∧ f.familyName = fam.familyName) ∧
    ((groupIntoFamilies cmp faces).flatMap FontFamily.faces).Perm faces := by
  refine ⟨?_, ?_, ?_, ?_⟩
  · intro fam hfam
    obtain ⟨kv, hkv, rfl⟩ := (mem_groupIntoFamilies cmp faces fam).mp hfam
    obtain ⟨name, hname, rfl⟩ := List.mem_map.mp hkv
    obtain ⟨g, hg, hgname⟩ :=
      List.mem_map.mp ((mem_firstOccur _ _).mp hname)
    have hgfilter : g ∈ faces.filter (fun f => f.familyName == name) :=
      List.mem_filter.mpr ⟨hg, by simp [hgname]⟩
    have hfaces : (mkFamily cmp (name,
        faces.filter (fun f => f.familyName == name))).faces =
      sortFamilyFaces cmp (faces.filter (fun f => f.familyName == name)) :=
      rfl
    have hgmem : g ∈ sortFamilyFaces cmp
        (faces.filter (fun f => f.familyName == name)) :=
      (List.perm_insertionSort _ _).mem_iff.mpr hgfilter
    have hne : sortFamilyFaces cmp
        (faces.filter (fun f => f.familyName == name)) ≠ [] := by
      intro hnil
      rw [hnil] at hgmem
      exact List.not_mem_nil g hgmem
    refine ⟨by rw [hfaces]; exact hne, ?_⟩
    cases hfind : (sortFamilyFaces cmp
        (faces.filter (fun f => f.familyName == name))).find?
        isRegularStyle with
    | some r =>
      refine ⟨r, by rw [hfaces]; exact List.mem_of_find?_eq_some hfind, ?_⟩
      show ((pickRepresentativeFace (sortFamilyFaces cmp _)).map
        FontFace.id).getD "" = r.id
      unfold pickRepresentativeFace
      rw [hfind]
      rfl
    | none =>
      rcases hsf : sortFamilyFaces cmp
          (faces.filter (fun f => f.familyName == name)) with _ | ⟨a, rest⟩
      · exact absurd hsf hne
      · refine ⟨a, by rw [hfaces, hsf]; exact List.mem_cons_self a rest, ?_⟩
        show ((pickRepresentativeFace (sortFamilyFaces cmp _)).map
          FontFace.id).getD "" = a.id
        unfold pickRepresentativeFace
        rw [hfind, hsf]
        rfl
  · rw [groupIntoFamilies_eq]
    refine (((List.perm_insertionSort _ _).map
      FontFamily.familyName).nodup_iff).mpr ?_
    rw [List.map_map]
    have : (FontFamily.familyName ∘ mkFamily cmp) ∘
        (fun name => (name,
          faces.filter (fun f => f.familyName == name))) = id := rfl
    unfold groupsOf
    rw [List.map_map, this, List.map_id]
    exact nodup_firstOccur _
  · intro fam hfam f
    obtain ⟨kv, hkv, rfl⟩ := (mem_groupIntoFamilies cmp faces fam).mp hfam
    obtain ⟨name, _, rfl⟩ := List.mem_map.mp hkv
    constructor
    · intro hf
      have hf2 : f ∈ faces.filter (fun g => g.familyName == name) :=
        (List.perm_insertionSort _ _).subset hf
      obtain ⟨hmem, hbeq⟩ := List.mem_filter.mp hf2
      exact ⟨hmem, by simpa using hbeq⟩
    · rintro ⟨hf, heq⟩
      refine (List.perm_insertionSort _ _).mem_iff.mpr
        (List.mem_filter.mpr ⟨hf, ?_⟩)
      simp only [beq_iff_eq, heq]
      rfl
  · rw [groupIntoFamilies_eq]
    refine (List.Perm.flatMap_right FontFamily.faces
      (List.perm_insertionSort _ _)).trans ?_
    rw [List.flatMap_map]
    refine (List.Perm.flatMap_left _ (fun kv _ =>
      List.perm_insertionSort _ kv.2)).trans ?_
    exact groupsOf_join_perm faces

set_option maxRecDepth 4000 in
/-- C10 witness: the theorem applied to the demo faces — the `Arial`
family is non-empty, its representative id is one of its faces' ids,
and the grouped faces are a permutation of the input. -/
theorem groupIntoFamilies_partition_witness :
    (mkFamily demoCmp ("Arial", [arialRegular, arialBold])).faces ≠ [] ∧
      (∃ f ∈ (mkFamily demoCmp ("Arial", [arialRegular, arialBold])).faces,
        (mkFamily demoCmp
          ("Arial", [arialRegular, arialBold])).representativeFaceId =
          f.id) ∧
      ((groupIntoFamilies demoCmp demoFaces).flatMap
        FontFamily.faces).Perm demoFaces :=
  ⟨((groupIntoFamilies_partition demoCmp demoFaces).1 _ (by decide)).1,
    ((groupIntoFamilies_partition demoCmp demoFaces).1 _ (by decide)).2,
    (groupIntoFamilies_partition demoCmp demoFaces).2.2.2⟩

/-- Recording a result resolves exactly the old results plus the
recorded face. -/
theorem previewResolved_record (s : PreviewQueueState) (fid : String)
    (res : Option String) (x : String) :
    previewResolved (recordPreview s fid res) x = true ↔
      (previewResolved s x = true ∨ x = fid) := by
  by_cases h : previewResolved s fid = true
  · have hrec : recordPreview s fid res = s := by
      unfold recordPreview
      rw [if_pos h]
  
    rw [hrec]
    constructor
    · exact Or.inl
    · rintro (hx | rfl)
      · exact hx
      · exact h
  · have hrec : (recordPreview s fid res).previews =
        s.previews ++ [(fid, res)] := by
      unfold recordPreview
      rw [if_neg h]
    unfold previewResolved
    rw [hrec, List.any_append]
    simp only [List.any_cons, List.any_nil, Bool.or_false, Bool.or_eq_true,
      beq_iff_eq]
    constructor
    · rintro (hx | hfx)
      · exact Or.inl hx
      · exact Or.inr hfx.symm
    · rintro (hx | rfl)
      · exact Or.inl hx
      · exact Or.inr rfl

/-- Popping the queue head into the dedup set preserves
well-formedness. -/
theorem popWF (c : Nat) (s : PreviewQueueState) (fid : String)
    (rest : List String) (h : QueueWF c s) (hq : s.queue = fid :: rest) :
    QueueWF c { s with queue := rest, queuedSet := s.queuedSet.erase fid } := by
  have hnd := h.nodupQueue
  rw [hq] at hnd
  have hfid_rest : fid ∉ rest := (List.nodup_cons.mp hnd).1
  refine ⟨(List.nodup_cons.mp hnd).2, h.nodupQueuedSet.erase fid, ?_,
    h.nodupRunning, h.activeEq, h.bound, ?_, ?_, h.nodupStarted⟩
  · intro x
    rw [List.Nodup.mem_erase_iff h.nodupQueuedSet, h.queuedEq x, hq,
      List.mem_cons]
    constructor
    · rintro ⟨hne, (rfl | hx)⟩
      · exact absurd rfl hne
      · exact hx
    · intro hx
      exact ⟨fun heq => hfid_rest (heq ▸ hx), Or.inr hx⟩
  · intro x hx
    exact h.disjoint x (by rw [hq]; exact List.mem_cons_of_mem fid hx)
  · exact h.startedInv

/-- Starting a task on an admissible face preserves well-formedness. -/
theorem startWF (c : Nat) (s : PreviewQueueState) (fid : String)
    (h : QueueWF c s) (hact : s.activeCount < c) (hrun : fid ∉ s.running)
    (hres : ¬previewResolved s fid = true) (hqueue : fid ∉ s.queue) :
    QueueWF c { s with running := s.running ++ [fid],
                       activeCount := s.activeCount + 1,
                       startedIds := s.startedIds ++ [fid] } := by
  refine ⟨h.nodupQueue, h.nodupQueuedSet, h.queuedEq, ?_, ?_, hact, ?_, ?_, ?_⟩
  · rw [List.nodup_append]
    exact ⟨h.nodupRunning, List.nodup_singleton fid,
      fun x hx hx1 => hrun ((List.mem_singleton.mp hx1) ▸ hx)⟩
  · simp [h.activeEq]
  · intro x hx
    rw [List.mem_append, List.mem_singleton]
    rintro (hx1 | rfl)
    · exact h.disjoint x hx hx1
    · exact hqueue hx
  · intro x hx
    rcases List.mem_append.mp hx with hx1 | hx1
    · rcases h.startedInv x hx1 with hr | hr
      · exact Or.inl (List.mem_append_left _ hr)
      · exact Or.inr hr
    · exact Or.inl (List.mem_append_right _ hx1)
  · rw [List.nodup_append]
    refine ⟨h.nodupStarted, List.nodup_singleton fid, fun x hx hx1 => ?_⟩
    rw [List.mem_singleton] at hx1
    subst hx1
    rcases h.startedInv x hx with hr | hr
    · exact hrun hr
    · exact hres hr

/-- The pump loop preserves well-formedness. -/
theorem pumpGo_wf (c : Nat) (faceById : List String) :
    ∀ (fuel : Nat) (s : PreviewQueueState), QueueWF c s →
      QueueWF c (pumpGo c faceById fuel s) := by
  intro fuel
  induction fuel with
  | zero => exact fun s h => h
  | succ fuel ih =>
    intro s h
    show QueueWF c (pumpGo c faceById (fuel + 1) s)
    rw [pumpGo]
    by_cases hact : s.activeCount < c
    · rw [if_pos hact]
      cases hq : s.queue with
      | nil => exact h
      | cons fid rest =>
        have hwf1 := popWF c s fid rest h hq
        by_cases hres : previewResolved
            { s with queue := rest, queuedSet := s.queuedSet.erase fid }
            fid = true
        · simp only [hres, if_true]
          exact ih _ hwf1
        · simp only [hres, if_false, Bool.false_eq_true]
          by_cases hrun : s.running.contains fid = true
          · simp only [hrun, if_true]
            exact ih _ hwf1
          · simp only [hrun, if_false, Bool.false_eq_true]
            by_cases hby : faceById.contains fid = true
            · simp only [hby, Bool.not_true, if_false, Bool.false_eq_true]
              refine ih _ (startWF c _ fid hwf1 hact ?_ hres ?_)
              · intro hmem
                exact hrun (by simpa using hmem)
              · intro hmem
                exact (List.nodup_cons.mp (hq ▸ h.nodupQueue)).1 hmem
            · simp only [hby, Bool.not_false, if_true]
              exact ih _ hwf1
    · rw [if_neg hact]
      exact h

/-- `pumpQueue` preserves well-formedness. -/
theorem pumpQueue_wf (c : Nat) (faceById : List String)
    (s : PreviewQueueState) (h : QueueWF c s) :
    QueueWF c (pumpQueue c faceById s) :=
  pumpGo_wf c faceById s.queue.length s h

/-- Inserting an admissible face into the pending queue preserves
well-formedness. -/
theorem pushWF (c : Nat) (s : PreviewQueueState) (fid : String)
    (priorityHigh : Bool) (h : QueueWF c s) (hnq : fid ∉ s.queuedSet)
    (hnr : fid ∉ s.running) :
    QueueWF c { s with
      queue := if priorityHigh then fid :: s.queue else s.queue ++ [fid],
      queuedSet := s.queuedSet ++ [fid] } := by
  have hnqueue : fid ∉ s.queue := fun hm => hnq ((h.queuedEq fid).mpr hm)
  have hqnodup : (if priorityHigh then fid :: s.queue
      else s.queue ++ [fid]).Nodup := by
    cases priorityHigh with
    | true => simpa using ⟨hnqueue, h.nodupQueue⟩
    | false =>
      simp only [if_false, Bool.false_eq_true, List.nodup_append]
      exact ⟨h.nodupQueue, List.nodup_singleton fid,
        fun x hx hx1 => hnqueue ((List.mem_singleton.mp hx1) ▸ hx)⟩
  refine ⟨hqnodup, ?_, ?_, h.nodupRunning, h.activeEq, h.bound, ?_,
    h.startedInv, h.nodupStarted⟩
  · rw [List.nodup_append]
    exact ⟨h.nodupQueuedSet, List.nodup_singleton fid,
      fun x hx hx1 => hnq ((List.mem_singleton.mp hx1) ▸ hx)⟩
  · intro x
    rw [List.mem_append, List.mem_singleton, h.queuedEq x]
    cases priorityHigh with
    | true => simp [or_comm]
    | false => simp
  · intro x hx
    have hx' : x ∈ s.queue ∨ x = fid := by
      cases priorityHigh with
      | true =>
        have hx2 : x = fid ∨ x ∈ s.queue := by simpa using hx
        exact hx2.symm
      | false => simpa using hx
    rcases hx' with hm | rfl
    · exact h.disjoint x hm
    · exact hnr

/-- Recording a result preserves well-formedness. -/
theorem recordWF (c : Nat) (s : PreviewQueueState) (fid : String)
    (res : Option String) (h : QueueWF c s) :
    QueueWF c (recordPreview s fid res) := by
  refine ⟨h.nodupQueue, h.nodupQueuedSet, h.queuedEq, h.nodupRunning,
    h.activeEq, h.bound, h.disjoint, ?_, h.nodupStarted⟩
  intro x hx
  rcases h.startedInv x hx with hr | hr
  · exact Or.inl hr
  · exact Or.inr ((previewResolved_record s fid res x).mpr (Or.inl hr))

/-- Releasing a running face whose result is recorded preserves
well-formedness. -/
theorem releaseWF (c : Nat) (s : PreviewQueueState) (fid : String)
    (h : QueueWF c s) (hmem : fid ∈ s.running)
    (hres : previewResolved s fid = true) :
    QueueWF c (releaseRunning s fid) := by
  refine ⟨h.nodupQueue, h.nodupQueuedSet, h.queuedEq,
    h.nodupRunning.erase fid, ?_, le_trans (Nat.sub_le _ _) h.bound, ?_,
    ?_, h.nodupStarted⟩
  · show s.activeCount - 1 = (s.running.erase fid).length
    rw [List.length_erase_of_mem hmem, h.activeEq]
  · intro x hx hx1
    exact h.disjoint x hx (List.mem_of_mem_erase hx1)
  · intro x hx
    rcases h.startedInv x hx with hr | hr
    · by_cases hxf : x = fid
      · exact Or.inr (hxf ▸ hres)
      · exact Or.inl ((List.Nodup.mem_erase_iff h.nodupRunning).mpr
          ⟨hxf, hr⟩)
    · exact Or.inr hr

/-- The initial queue state is well-formed. -/
theorem initialQueueState_wf (c : Nat) : QueueWF c initialQueueState := by
  refine ⟨List.nodup_nil, List.nodup_nil, ?_, List.nodup_nil, rfl,
    Nat.zero_le c, ?_, ?_, List.nodup_nil⟩
  · intro x
    constructor <;> exact fun hx => absurd hx (List.not_mem_nil x)
  · intro x hx
    exact absurd hx (List.not_mem_nil x)
  · intro x hx
    exact absurd hx (List.not_mem_nil x)

/-- C8: from a well-formed queue state, enqueuing preserves
well-formedness and never leaves more than the concurrency limit of
tasks running; enqueuing a face that is already pending, already
running, or already resolved (including to "unavailable") leaves the
state completely unchanged — so enqueuing the same face twice while its
generation is pending results in exactly one generation, and indeed in
any well-formed state no face has ever been started twice; task
completion likewise preserves well-formedness and the bound; and the
initial state is well-formed. -/
theorem previewQueue_correct (c : Nat) (faceById : List String)
    (s : PreviewQueueState) (faceId : String) (priorityHigh : Bool)
    (result : Option String) :
    (QueueWF c s →
      QueueWF c (enqueuePreview c faceById s faceId priorityHigh) ∧
      (enqueuePreview c faceById s faceId priorityHigh).running.length ≤ c) ∧
    (QueueWF c s → faceId ∈ s.running →
      QueueWF c (completePreview c faceById s faceId result) ∧
      (completePreview c faceById s faceId result).running.length ≤ c) ∧
    ((faceId ∈ s.queuedSet ∨ faceId ∈ s.running ∨
        previewResolved s faceId = true) →
      enqueuePreview c faceById s faceId priorityHigh = s) ∧
    (QueueWF c s → s.startedIds.Nodup) ∧
    QueueWF c initialQueueState := by
  have hrun_le : ∀ t : PreviewQueueState, QueueWF c t →
      t.running.length ≤ c := fun t ht => ht.activeEq ▸ ht.bound
  refine ⟨?_, ?_, ?_, fun h => h.nodupStarted, initialQueueState_wf c⟩
  · intro h
    have hwf : QueueWF c (enqueuePreview c faceById s faceId priorityHigh) := by
      unfold enqueuePreview
      by_cases h1 : (faceId == "") = true
      · rw [if_pos h1]; exact h
      · rw [if_neg h1]
        by_cases h2 : (!faceById.contains faceId) = true
        · rw [if_pos h2]; exact h
        · rw [if_neg h2]
          by_cases h3 : previewResolved s faceId = true
          · rw [if_pos h3]; exact h
          · rw [if_neg h3]
            by_cases h4 : s.queuedSet.contains faceId = true
            · rw [if_pos h4]; exact h
            · rw [if_neg h4]
              by_cases h5 : s.running.contains faceId = true
              · rw [if_pos h5]; exact h
              · rw [if_neg h5]
                refine pumpQueue_wf c faceById _
                  (pushWF c s faceId priorityHigh h ?_ ?_)
                · intro hm
                  exact h4 (by simpa using hm)
                · intro hm
                  exact h5 (by simpa using hm)
    exact ⟨hwf, hrun_le _ hwf⟩
  · intro h hmem
    have hwf : QueueWF c (completePreview c faceById s faceId result) := by
      unfold completePreview
      refine pumpQueue_wf c faceById _
        (releaseWF c _ faceId (recordWF c s faceId result h) hmem ?_)
      exact (previewResolved_record s faceId result faceId).mpr (Or.inr rfl)
    exact ⟨hwf, hrun_le _ hwf⟩
  · intro hdup
    unfold enqueuePreview
    by_cases h1 : (faceId == "") = true
    · rw [if_pos h1]
    · rw [if_neg h1]
      by_cases h2 : (!faceById.contains faceId) = true
      · rw [if_pos h2]
      · rw [if_neg h2]
        by_cases h3 : previewResolved s faceId = true
        · rw [if_pos h3]
        · rw [if_neg h3]
          by_cases h4 : s.queuedSet.contains faceId = true
          · rw [if_pos h4]
          · rw [if_neg h4]
            by_cases h5 : s.running.contains faceId = true
            · rw [if_pos h5]
            · exfalso
              rcases hdup with hd | hd | hd
              · exact h4 (by simpa using hd)
              · exact h5 (by simpa using hd)
              · exact h3 hd

/-- C8 witness: with faces `["f1"]` and concurrency 2, a second
enqueue of `"f1"` while its generation is running is a no-op; exactly
one generation was started; and the running count stays within the
limit. -/
theorem previewQueue_correct_witness :
    enqueuePreview 2 ["f1"]
        (enqueuePreview 2 ["f1"] initialQueueState "f1" false) "f1" false =
      enqueuePreview 2 ["f1"] initialQueueState "f1" false ∧
    (enqueuePreview 2 ["f1"] initialQueueState "f1" false).startedIds =
      ["f1"] ∧
    (enqueuePreview 2 ["f1"] initialQueueState "f1" false).running.length ≤
      2 :=
  ⟨(previewQueue_correct 2 ["f1"]
      (enqueuePreview 2 ["f1"] initialQueueState "f1" false) "f1" false
      none).2.2.1 (Or.inr (Or.inl (by decide))),
    by decide,
    ((previewQueue_correct 2 ["f1"] initialQueueState "f1" false none).1
      (previewQueue_correct 2 ["f1"] initialQueueState "f1" false
        none).2.2.2.2).2⟩
